import Mathlib

/-!
# telegrep: the log event pipeline

A shallow embedding of `src/telegrep.cpp` (escaping, syslog decomposition,
classification, the event buffer and the per-line step of the monitor loop),
followed by theorems about it.

Modelling conventions.

* `std::string` is a sequence of bytes, `Str = List UInt8`; `length`, `substr`
  and `find` count bytes, as in the source.  Source literals are written with
  `lit`, which gives their UTF-8 bytes.
* `std::regex` (ECMAScript grammar, the default backtracking executor) is
  modelled by a regular-expression tree `Re` and a backtracking matcher
  `Re.run` with capture groups; every regular expression of the source is
  transcribed as such a tree.
* `time_t` values and the `int` event counter are mathematical integers.
* A call that throws (`std::string::substr` past the end) is `none`.
* `send_telegram_message` is an external capability: a function from the
  message to the success flag; the messages handed to it are collected in order.
-/

namespace Telegrep

/-! ## Byte strings -/

/-- A `std::string`: a sequence of bytes. -/
abbrev Str := List UInt8

/-- The UTF-8 bytes of a source literal. -/
def lit (s : String) : Str := s.data.flatMap String.utf8EncodeChar

/-- `std::string::find(needle)` from position 0: the first index at which `needle` occurs. -/
def find (needle : Str) : Str → Option Nat
  | [] => if needle.isEmpty then some 0 else none
  | c :: cs =>
    if needle.isPrefixOf (c :: cs) then some 0
    else (find needle cs).map (· + 1)

/-- `std::string::substr(pos)`: throws `std::out_of_range` when `pos > size()`. -/
def substr (s : Str) (pos : Nat) : Option Str :=
  if pos > s.length then none else some (s.drop pos)

/-- `std::to_string` on a non-negative value: its decimal digits. -/
def natDigits (n : Nat) : Str := (Nat.toDigits 10 n).map (fun c => c.toNat.toUInt8)

/-- `std::to_string(int)`. -/
def to_string (n : Int) : Str :=
  match n with
  | Int.ofNat m => natDigits m
  | Int.negSucc m => 45 :: natDigits (m + 1)

/-! ## Regular expressions -/

/-- Regular-expression trees for the constructs the source's patterns use. -/
inductive Re where
  | eps : Re
  | cls : (UInt8 → Bool) → Re
  | seq : Re → Re → Re
  | alt : Re → Re → Re
  | star : Re → Re
  | group : Nat → Re → Re
  | bol : Re
  | eol : Re

/-- State of a match attempt: bytes consumed so far, the remaining subject and the captures. -/
structure MState where
  pos : Nat
  rem : Str
  caps : Nat → Option Str

/-- Record the text `w` as capture group `i`. -/
def MState.setCap (st : MState) (i : Nat) (w : Str) : MState :=
  { st with caps := fun j => if j = i then some w else st.caps j }

/-- Greedy repetition of `body`: one more iteration first (it has to consume input),
then the continuation.  `fuel` bounds the number of iterations by the remaining length. -/
def starRun (body : (MState → Option MState) → MState → Option MState)
    (k : MState → Option MState) : Nat → MState → Option MState
  | 0, st => k st
  | fuel + 1, st =>
    match body (fun st' =>
        if st'.rem.length < st.rem.length then starRun body k fuel st' else none) st with
    | some r => some r
    | none => k st

/-- Backtracking matcher in continuation-passing style: alternatives are tried left to
right, repetition is greedy, a group records the bytes its body consumed. -/
def Re.run : Re → (MState → Option MState) → MState → Option MState
  | .eps => fun k st => k st
  | .cls p => fun k st =>
    match st.rem with
    | [] => none
    | c :: cs => if p c then k { st with pos := st.pos + 1, rem := cs } else none
  | .seq a b => fun k st => a.run (b.run k) st
  | .alt a b => fun k st =>
    match a.run k st with
    | some r => some r
    | none => b.run k st
  | .star a => fun k st => starRun a.run k st.rem.length st
  | .group i a => fun k st =>
    a.run (fun st' => k (st'.setCap i (st.rem.take (st.rem.length - st'.rem.length)))) st
  | .bol => fun k st => if st.pos = 0 then k st else none
  | .eol => fun k st => if st.rem.isEmpty then k st else none

/-- The result of a successful match (`std::smatch`): `sub i` is `match[i].str()`,
empty for a group that did not take part. -/
structure Smatch where
  caps : Nat → Option Str

/-- Text of capture group `i`: `match[i].str()`. -/
def Smatch.sub (m : Smatch) (i : Nat) : Str := (m.caps i).getD []

/-- `std::regex_match`: the whole subject has to be matched. -/
def regex_match (re : Re) (s : Str) : Option Smatch :=
  (re.run (fun st => if st.rem.isEmpty then some st else none)
    { pos := 0, rem := s, caps := fun _ => none }).map (fun st => { caps := st.caps })

/-- Match attempts of `std::regex_search` at the successive start offsets. -/
def searchFrom (re : Re) : Nat → Str → Option MState
  | pos, [] => re.run some { pos := pos, rem := [], caps := fun _ => none }
  | pos, c :: cs =>
    match re.run some { pos := pos, rem := c :: cs, caps := fun _ => none } with
    | some r => some r
    | none => searchFrom re (pos + 1) cs

/-- `std::regex_search` with a match result: the leftmost match. -/
def regex_search_m (re : Re) (s : Str) : Option Smatch :=
  (searchFrom re 0 s).map (fun st => { caps := st.caps })

/-- `std::regex_search` without a match result. -/
def regex_search (re : Re) (s : Str) : Bool := (searchFrom re 0 s).isSome

/-! ### Pattern building blocks -/

/-- One given byte. -/
def Re.byte (c : UInt8) : Re := .cls (fun b => b == c)

/-- `tolower` in the "C" locale. -/
def toLower (b : UInt8) : UInt8 := if 65 ≤ b ∧ b ≤ 90 then b + 32 else b

/-- One given byte, compared case-insensitively (`std::regex::icase`). -/
def Re.byteI (c : UInt8) : Re := .cls (fun b => toLower b == toLower c)

/-- Concatenation of a list of patterns. -/
def Re.cat : List Re → Re
  | [] => .eps
  | [r] => r
  | r :: rs => .seq r (Re.cat rs)

/-- Alternation `r1|r2|...` of a non-empty list of patterns. -/
def Re.alts : List Re → Re
  | [] => .cls (fun _ => false)
  | [r] => r
  | r :: rs => .alt r (Re.alts rs)

/-- A literal string. -/
def Re.str (s : String) : Re := Re.cat ((lit s).map Re.byte)

/-- A literal string under `std::regex::icase`. -/
def Re.strI (s : String) : Re := Re.cat ((lit s).map Re.byteI)

/-- `r+`. -/
def Re.plus (r : Re) : Re := .seq r (.star r)

/-- `r?` (greedy). -/
def Re.opt (r : Re) : Re := .alt r .eps

/-- `\s`: the `space` class of the "C" locale. -/
def isSpace (b : UInt8) : Bool := b == 32 || (9 ≤ b && b ≤ 13)

/-- `\d`. -/
def isDigit (b : UInt8) : Bool := 48 ≤ b && b ≤ 57

/-- `[A-Za-z]`. -/
def isAlpha (b : UInt8) : Bool := (65 ≤ b && b ≤ 90) || (97 ≤ b && b ≤ 122)

/-- `.`: any byte except the line terminators `\n` and `\r`. -/
def isDot (b : UInt8) : Bool := b != 10 && b != 13

/-- `\s`. -/
def Re.space : Re := .cls isSpace
/-- `\S`. -/
def Re.nonspace : Re := .cls (fun b => !isSpace b)
/-- `\d`. -/
def Re.digit : Re := .cls isDigit
/-- `[A-Za-z]`. -/
def Re.alpha : Re := .cls isAlpha
/-- `.`. -/
def Re.dot : Re := .cls isDot

/-! ## Escaping and decomposition -/

/-- One step of the loop of `html_escape`: what is appended for the byte `c`. -/
def escapeByte (c : UInt8) : Str :=
  if c = 38 then lit "&amp;"
  else if c = 60 then lit "&lt;"
  else if c = 62 then lit "&gt;"
  else [c]

/-- `html_escape`: every `&`, `<` and `>` is replaced by its entity. -/
def html_escape (data : Str) : Str := data.flatMap escapeByte

/-- The three components of a syslog line. -/
structure LogComponents where
  timestamp : Str
  hostname : Str
  rest : Str

/-- `[A-Za-z]{3}\s+\d{1,2}\s+\d{2}:\d{2}:\d{2}`, the body of the first group of `log_regex`. -/
def timestamp_re : Re :=
  Re.cat [.alpha, .alpha, .alpha, .plus .space, .digit, .opt .digit, .plus .space,
    .digit, .digit, .byte 58, .digit, .digit, .byte 58, .digit, .digit]

/-- `^([A-Za-z]{3}\s+\d{1,2}\s+\d{2}:\d{2}:\d{2})\s+(\S+)\s+(.*)$` -/
def log_regex : Re :=
  Re.cat [.bol, .group 1 timestamp_re, .plus .space, .group 2 (.plus .nonspace), .plus .space,
    .group 3 (.star .dot), .eol]

/-- `parse_log_line`: on a line that is not of the syslog shape the whole line is `rest`. -/
def parse_log_line (line : Str) : LogComponents :=
  match regex_match log_regex line with
  | some m => { timestamp := m.sub 1, hostname := m.sub 2, rest := m.sub 3 }
  | none => { timestamp := [], hostname := [], rest := line }

/-! ## Classification -/

/-- `HISTORY:\s*PID=(\d+)\s+UID=(\d+)\s+(.+)` -/
def history_regex : Re :=
  Re.cat [.str "HISTORY:", .star .space, .str "PID=", .group 1 (.plus .digit), .plus .space,
    .str "UID=", .group 2 (.plus .digit), .plus .space, .group 3 (.plus .dot)]

/-- The command-specific icon of the HISTORY branch; `emoji` is the icon set so far. -/
def history_emoji (emoji cmd : Str) : Str :=
  if regex_search (Re.cat [.bol, .group 1 (Re.alts [.str "ssh", .str "scp", .str "sftp"])]) cmd
    then lit "🔐"
  else if regex_search (Re.cat [.bol, .str "su", .group 1 (Re.alts [.space, .eol])]) cmd
    then lit "👤"
  else if regex_search (Re.cat [.bol, .str "docker"]) cmd then lit "🐳"
  else if regex_search (Re.cat [.bol,
      .group 1 (Re.alts [.str "systemctl", .str "rc-service", .str "rc-update"])]) cmd
    then lit "🧩"
  else if regex_search (Re.cat [.bol, .group 1 (Re.alts [.str "rm", .str "rmdir"]),
      .plus .space, .byte 45, .star .dot, .byte 114]) cmd
    then lit "🗑️"
  else if regex_search (Re.cat [.bol, .group 1 (Re.alts [.str "vim", .str "nano", .str "vi",
      .str "cat", .str "less", .str "tail", .str "head"])]) cmd
    then lit "📝"
  else if regex_search (Re.cat [.bol,
      .group 1 (Re.alts [.str "cd", .str "ls", .str "pwd", .str "find"])]) cmd
    then lit "📁"
  else if regex_search (Re.cat [.bol, .group 1 (Re.alts [.str "apt", .str "emerge", .str "yum",
      .str "dnf", .str "pacman", .str "eix"])]) cmd
    then lit "📦"
  else if regex_search (Re.cat [.bol, .group 1 (Re.alts [.str "screen", .str "tmux"])]) cmd
    then lit "🖥️"
  else emoji

/-- The first line of every rendering:
`emoji + " <b>" + comp.timestamp + "</b> <code>" + comp.hostname + "</code>\n"`. -/
def header (emoji : Str) (comp : LogComponents) : Str :=
  emoji ++ lit " <b>" ++ comp.timestamp ++ lit "</b> <code>" ++ comp.hostname ++ lit "</code>\n"

/-- `(error|fail|panic|oops|bug)`, case-insensitive. -/
def kernel_error_regex : Re :=
  .group 1 (Re.alts [.strI "error", .strI "fail", .strI "panic", .strI "oops", .strI "bug"])

/-- `(oom|out of memory)`, case-insensitive. -/
def kernel_oom_regex : Re := .group 1 (Re.alts [.strI "oom", .strI "out of memory"])

/-- `(eth|wlan|br-|veth|device|link)` -/
def kernel_net_regex : Re :=
  .group 1 (Re.alts [.str "eth", .str "wlan", .str "br-", .str "veth", .str "device", .str "link"])

/-- `(disk|mount|filesystem)` -/
def kernel_disk_regex : Re := .group 1 (Re.alts [.str "disk", .str "mount", .str "filesystem"])

/-- `(sshd|ssh).*(accepted|failed)`, case-insensitive. -/
def ssh_regex : Re :=
  Re.cat [.group 1 (Re.alts [.strI "sshd", .strI "ssh"]), .star .dot,
    .group 2 (Re.alts [.strI "accepted", .strI "failed"])]

/-- `(docker|container)`, case-insensitive. -/
def docker_regex : Re := .group 1 (Re.alts [.strI "docker", .strI "container"])

/-- `(error|erro|fail|failed|critical|alert|emergency)`, case-insensitive. -/
def error_regex : Re :=
  .group 1 (Re.alts [.strI "error", .strI "erro", .strI "fail", .strI "failed", .strI "critical",
    .strI "alert", .strI "emergency"])

/-- `(warn|warning)`, case-insensitive. -/
def warn_regex : Re := .group 1 (Re.alts [.strI "warn", .strI "warning"])

/-- `(cron|CRON)` -/
def cron_regex : Re := .group 1 (Re.alts [.str "cron", .str "CRON"])

/-- The kernel branch of `format_log_line`, from the message cut out of the body. -/
def format_kernel (comp : LogComponents) (kernel_msg : Str) : Str :=
  if regex_search kernel_error_regex kernel_msg then
    header (lit "🚨⚙️") comp ++ lit "└ <i>" ++ (lit "<b>" ++ kernel_msg ++ lit "</b>") ++ lit "</i>"
  else if regex_search kernel_oom_regex kernel_msg then
    header (lit "💥") comp ++ lit "└ <i>" ++ kernel_msg ++ lit "</i>"
  else if regex_search kernel_net_regex kernel_msg then
    header (lit "🌐") comp ++ lit "└ <i>" ++ kernel_msg ++ lit "</i>"
  else if regex_search kernel_disk_regex kernel_msg then
    header (lit "💾") comp ++ lit "└ <i>" ++ kernel_msg ++ lit "</i>"
  else
    header (lit "⚙️") comp ++ lit "└ <i>" ++ kernel_msg ++ lit "</i>"

/-- `format_log_line`: the decorated message of a log line; `none` when the function
leaves by an exception.  In the HISTORY branch `formatted` is assigned only when
`history_regex` matches, otherwise the function returns the empty string it was
initialised with. -/
def format_log_line (line : Str) : Option Str :=
  let escaped_line := html_escape line
  let comp := parse_log_line escaped_line
  if (find (lit "HISTORY:") comp.rest).isSome then
    match regex_search_m history_regex comp.rest with
    | some m =>
      let pid := m.sub 1
      let uid := m.sub 2
      let cmd := m.sub 3
      let emoji := history_emoji (lit "🧠") cmd
      if uid = lit "0" then
        some (header emoji comp ++
          lit "├ <b><u>ROOT</u></b> PID:<code>" ++ pid ++ lit "</code> UID:<code>" ++ uid ++
          lit "</code>\n" ++ lit "└ <code>" ++ cmd ++ lit "</code>")
      else
        some (header emoji comp ++
          lit "├ 👤 User PID:<code>" ++ pid ++ lit "</code> UID:<code>" ++ uid ++
          lit "</code>\n" ++ lit "└ <code>" ++ cmd ++ lit "</code>")
    | none => some []
  else
    match find (lit "kernel:") comp.rest with
    | some p =>
      match substr comp.rest (p + 8) with
      | some kernel_msg => some (format_kernel comp kernel_msg)
      | none => none
    | none =>
      if regex_search ssh_regex comp.rest then
        let emoji := if regex_search (.strI "accepted") comp.rest then lit "✅🔐" else lit "❌🔐"
        some (header emoji comp ++ lit "└ <u>" ++ comp.rest ++ lit "</u>")
      else if regex_search docker_regex comp.rest then
        some (header (lit "🐳") comp ++ lit "└ <i>" ++ comp.rest ++ lit "</i>")
      else if regex_search error_regex comp.rest then
        some (header (lit "🚨") comp ++ lit "└ <b><u>" ++ comp.rest ++ lit "</u></b>")
      else if regex_search warn_regex comp.rest then
        some (header (lit "⚠️") comp ++ lit "└ <i>" ++ comp.rest ++ lit "</i>")
      else if regex_search cron_regex comp.rest then
        some (header (lit "⏰") comp ++ lit "└ " ++ comp.rest)
      else
        some (header (lit "📋") comp ++ lit "└ " ++ comp.rest)

/-! ## The event buffer -/

/-- The configuration; only `pattern` and `exceptions` are read by the pipeline. -/
structure Config where
  token : Str
  chat_id : Str
  pattern : Str
  exceptions : Str
  log_file : Str

/-- The buffer of classified events of the current window. -/
structure EventBuffer where
  events : List Str
  last_send_time : Int
  event_count : Int
  last_mass_warning_time : Int
  deriving DecidableEq

/-- The constructor `EventBuffer()`. -/
def EventBuffer.init : EventBuffer :=
  { events := [], last_send_time := 0, event_count := 0, last_mass_warning_time := 0 }

/-- The message of the overload branch of `process_buffer`. -/
def mass_warning_message (event_count : Int) : Str :=
  lit "🚨 <b>MASS WARNING</b>\n" ++ lit "⚠️ Получено <u>" ++ to_string event_count ++
  lit " событий</u> за последние 10 секунд\n" ++ lit "🔍 Проверьте систему немедленно!"

/-- The initial value of `message` in the digest branch of `process_buffer`. -/
def digest_header (event_count : Int) : Str :=
  lit "📊 <b>События за последние 10 сек:</b> " ++ to_string event_count ++ lit "\n" ++
  lit "━━━━━━━━━━━━━━━━━━\n\n"

/-- The suffix appended to a cut digest. -/
def truncation_suffix : Str := lit "\n\n<i>... [сообщение обрезано]</i>"

/-- The message of the digest branch of `process_buffer`: the loop
`message += event + "\n\n"` over the events, then the cut at 3800 bytes
(`substr(0, 3700)` cannot throw). -/
def digest_message (buffer : EventBuffer) : Str :=
  let message := buffer.events.foldl (fun message event => message ++ (event ++ lit "\n\n"))
    (digest_header buffer.event_count)
  if message.length > 3800 then message.take 3700 ++ truncation_suffix else message

/-- `process_buffer`, with `current_time` the value read from `time(nullptr)` and `send`
the outcome of `send_telegram_message`.  Returns the buffer afterwards and the messages
handed to `send`, in order. -/
def process_buffer (send : Str → Bool) (current_time : Int) (buffer : EventBuffer) :
    EventBuffer × List Str :=
  if current_time - buffer.last_send_time < 10 then (buffer, [])
  else
    let r : EventBuffer × List Str :=
      if !buffer.events.isEmpty then
        if buffer.event_count ≥ 50 then
          if current_time - buffer.last_mass_warning_time ≥ 300 then
            let message := mass_warning_message buffer.event_count
            if send message then
              ({ buffer with last_mass_warning_time := current_time }, [message])
            else (buffer, [message])
          else (buffer, [])
        else (buffer, [digest_message buffer])
      else (buffer, [])
    ({ r.1 with events := [], event_count := 0, last_send_time := current_time }, r.2)

/-! ## The monitor loop -/

/-- The body of the loop of `monitor_logs` when `getline` delivers `line`; `compile` is
the constructor of `std::regex`.  `none` when `format_log_line` throws: the exception is
not caught anywhere, the process terminates. -/
def monitor_line (compile : Str → Re) (config : Config) (buffer : EventBuffer) (line : Str) :
    Option EventBuffer :=
  let pattern_regex := compile config.pattern
  let has_exceptions := !config.exceptions.isEmpty
  let matched := regex_search pattern_regex line
  let matched :=
    if matched && has_exceptions then
      if regex_search (compile config.exceptions) line then false else matched
    else matched
  if matched then
    match format_log_line line with
    | some formatted =>
      some { buffer with events := buffer.events ++ [formatted],
                         event_count := buffer.event_count + 1 }
    | none => none
  else some buffer

/-- What one iteration of the loop of `monitor_logs` meets: a line delivered by `getline`,
or the end of the file, with the clock value and the transport outcome of that moment. -/
inductive Tick where
  | line : Str → Tick
  | idle : Int → (Str → Bool) → Tick

/-- The loop of `monitor_logs` over the iterations it runs before the stop flag is seen:
the buffer at loop exit and every message handed to `send`; `none` when an iteration
throws. -/
def run_loop (compile : Str → Re) (config : Config) :
    List Tick → EventBuffer → Option (EventBuffer × List Str)
  | [], buffer => some (buffer, [])
  | Tick.line l :: ticks, buffer =>
    match monitor_line compile config buffer l with
    | some buffer1 => run_loop compile config ticks buffer1
    | none => none
  | Tick.idle now send :: ticks, buffer =>
    let r := process_buffer send now buffer
    match run_loop compile config ticks r.1 with
    | some (buffer2, sent) => some (buffer2, r.2 ++ sent)
    | none => none

/-- `monitor_logs` once the log file is open: the loop, then the call of `process_buffer`
after it, made at clock value `final_time` with transport outcome `final_send`.  Returns
every message handed to `send`. -/
def monitor_logs (compile : Str → Re) (config : Config) (ticks : List Tick)
    (final_time : Int) (final_send : Str → Bool) : Option (List Str) :=
  match run_loop compile config ticks EventBuffer.init with
  | some (buffer, sent) => some (sent ++ (process_buffer final_send final_time buffer).2)
  | none => none

/-! ## Declarative reading of the matcher, and escaped text -/

/-- Zero or more steps of `R`. -/
inductive Iter (R : MState → MState → Prop) : MState → MState → Prop
  | done (s : MState) : Iter R s s
  | more {s m t : MState} : R s m → Iter R m t → Iter R s t

/-- The states a pattern can lead to from a state, whatever the order of the attempts:
`r.den s t` when `r` can consume a front part of `s.rem`, leaving `t`. -/
def Re.den : Re → MState → MState → Prop
  | .eps => fun s t => t = s
  | .cls p => fun s t =>
    ∃ c cs, s.rem = c :: cs ∧ p c = true ∧ t = { s with pos := s.pos + 1, rem := cs }
  | .seq a b => fun s t => ∃ m, a.den s m ∧ b.den m t
  | .alt a b => fun s t => a.den s t ∨ b.den s t
  | .star a => fun s t => Iter a.den s t
  | .group i a => fun s t =>
    ∃ m, a.den s m ∧ t = m.setCap i (s.rem.take (s.rem.length - m.rem.length))
  | .bol => fun s t => s.pos = 0 ∧ t = s
  | .eol => fun s t => s.rem = [] ∧ t = s

/-- Every byte class of the pattern only admits bytes with the property `q`. -/
def Re.allCls (q : UInt8 → Prop) : Re → Prop
  | .eps => True
  | .cls p => ∀ c, p c = true → q c
  | .seq a b => a.allCls q ∧ b.allCls q
  | .alt a b => a.allCls q ∧ b.allCls q
  | .star a => a.allCls q
  | .group _ a => a.allCls q
  | .bol => True
  | .eol => True

/-- The part of `history_regex` before its last group. -/
def history_head : Re :=
  Re.cat [.str "HISTORY:", .star .space, .str "PID=", .group 1 (.plus .digit), .plus .space,
    .str "UID=", .group 2 (.plus .digit), .plus .space]

/-- The markup tags the classifier writes. -/
def tags : List Str :=
  [lit "<b>", lit "</b>", lit "<i>", lit "</i>", lit "<u>", lit "</u>", lit "<code>",
   lit "</code>"]

/-- The three entities `html_escape` writes. -/
def entities : List Str := [lit "&amp;", lit "&lt;", lit "&gt;"]

/-- Whether the byte `c`, standing between `before` and `after`, is accounted for: a `<`
begins one of the tags, a `>` ends one of the tags, an `&` begins one of the entities;
any other byte is fine. -/
def byteOk (before : Str) (c : UInt8) (after : Str) : Bool :=
  if c = 60 then tags.any (fun t => t.isPrefixOf (c :: after))
  else if c = 62 then tags.any (fun t => t.isSuffixOf (before ++ [c]))
  else if c = 38 then entities.any (fun e => e.isPrefixOf (c :: after))
  else true

/-- The check `ok` applied to the byte at index `i` of `s`, with what stands before and
after it. -/
def okAt (ok : Str → UInt8 → Str → Bool) (s : Str) (i : Nat) : Bool :=
  match s.drop i with
  | [] => true
  | c :: after => ok (s.take i) c after

/-- A message without a bare `&`, `<` or `>`: every `<` and every `>` is part of one of
the tags and every `&` is the first byte of one of the entities. -/
def Safe (s : Str) : Prop := ∀ i, i < s.length → okAt byteOk s i = true

instance (s : Str) : Decidable (Safe s) := by
  unfold Safe
  infer_instance

/-- A byte other than `&`, `<` and `>`. -/
def plainByte (c : UInt8) : Prop := c ≠ 38 ∧ c ≠ 60 ∧ c ≠ 62

instance (c : UInt8) : Decidable (plainByte c) := by
  unfold plainByte
  infer_instance

/-- The check for escaped text: the byte is no `<` and no `>`, and an `&` begins one of
the entities. -/
def contentOk (_before : Str) (c : UInt8) (after : Str) : Bool :=
  c != 60 && c != 62 && (c != 38 || entities.any (fun e => e.isPrefixOf (c :: after)))

/-- Escaped text: no `<`, no `>`, and every `&` begins one of the entities. -/
def Esc (s : Str) : Prop := ∀ i, i < s.length → okAt contentOk s i = true

instance (s : Str) : Decidable (Esc s) := by
  unfold Esc
  infer_instance

/-- No capture group occurs in the pattern. -/
def Re.groupFree : Re → Bool
  | .eps => true
  | .cls _ => true
  | .seq a b => a.groupFree && b.groupFree
  | .alt a b => a.groupFree && b.groupFree
  | .star a => a.groupFree
  | .group _ _ => false
  | .bol => true
  | .eol => true

/-! ## Definitions used by the statements -/

/-- The natural rendering of a digest, as the specification words it: the header stating
the event count, then every buffered event in insertion order, each followed by a blank
line. -/
def natural_rendering (buffer : EventBuffer) : Str :=
  digest_header buffer.event_count ++ buffer.events.flatMap (fun event => event ++ lit "\n\n")

/-- A `std::regex` constructor for patterns without metacharacters: the pattern is the
literal byte string to look for. -/
def literalCompile (pattern : Str) : Re := Re.cat (pattern.map Re.byte)

/-- A configuration that selects the lines containing `HISTORY`, without exclusions. -/
def historyConfig : Config :=
  { token := [], chat_id := [], pattern := lit "HISTORY", exceptions := [],
    log_file := lit "/var/log/messages" }

/-- A configuration that selects the lines containing `kernel`, without exclusions. -/
def kernelConfig : Config :=
  { token := [], chat_id := [], pattern := lit "kernel", exceptions := [],
    log_file := lit "/var/log/messages" }

/-- A buffer holding `n` copies of the event `e`, with the counter in step. -/
def filledBuffer (n : Nat) (e : Str) (last_send_time last_mass_warning_time : Int) :
    EventBuffer :=
  { events := List.replicate n e, last_send_time := last_send_time, event_count := n,
    last_mass_warning_time := last_mass_warning_time }

/-- A buffer holding the given events, with the counter in step. -/
def bufferOf (events : List Str) (last_send_time last_mass_warning_time : Int) :
    EventBuffer :=
  { events := events, last_send_time := last_send_time, event_count := events.length,
    last_mass_warning_time := last_mass_warning_time }

/-- Whether a match of `re` begins at offset `i` of `s` (`std::regex_search` on the tail
from `i` with `match_continuous`). -/
def matchesAt (re : Re) (s : Str) (i : Nat) : Bool :=
  (re.run some { pos := i, rem := s.drop i, caps := fun _ => none }).isSome

/-- A non-empty run of white space. -/
def IsBlank (ws : Str) : Prop := ws ≠ [] ∧ ∀ c ∈ ws, isSpace c = true

instance (ws : Str) : Decidable (IsBlank ws) := by
  unfold IsBlank
  infer_instance

/-- A non-empty run of bytes other than white space. -/
def IsWord (w : Str) : Prop := w ≠ [] ∧ ∀ c ∈ w, isSpace c = false

instance (w : Str) : Decidable (IsWord w) := by
  unfold IsWord
  infer_instance

/-- A non-empty run of decimal digits. -/
def IsNumber (p : Str) : Prop := p ≠ [] ∧ ∀ c ∈ p, isDigit c = true

instance (p : Str) : Decidable (IsNumber p) := by
  unfold IsNumber
  infer_instance

/-- Text that stays within one line: no line feed and no carriage return. -/
def OneLine (s : Str) : Prop := ∀ c ∈ s, isDot c = true

instance (s : Str) : Decidable (OneLine s) := by
  unfold OneLine
  infer_instance

/-- The time of day of a syslog stamp: two digits, a colon, two digits, a colon, two
digits. -/
def IsClock (t : Str) : Prop :=
  ∃ h1 h2 m1 m2 s1 s2, t = [h1, h2, 58, m1, m2, 58, s1, s2] ∧
    isDigit h1 = true ∧ isDigit h2 = true ∧ isDigit m1 = true ∧ isDigit m2 = true ∧
    isDigit s1 = true ∧ isDigit s2 = true

/-- A syslog stamp such as `Oct 29 01:09:44`: three letters, white space, a day of one or
two digits, white space, the time of day. -/
def IsTimestamp (ts : Str) : Prop :=
  ∃ mon w1 day w2 clock, ts = mon ++ w1 ++ day ++ w2 ++ clock ∧
    (mon.length = 3 ∧ ∀ c ∈ mon, isAlpha c = true) ∧ IsBlank w1 ∧
    ((day.length = 1 ∨ day.length = 2) ∧ ∀ c ∈ day, isDigit c = true) ∧ IsBlank w2 ∧
    IsClock clock

/-- A recursive removal: `rm` or `rmdir`, white space, and a `-` followed somewhere by an
`r`. -/
def IsDestructive (cmd : Str) : Prop :=
  ∃ head ws flags tail, cmd = head ++ ws ++ [45] ++ flags ++ [114] ++ tail ∧
    (head = lit "rm" ∨ head = lit "rmdir") ∧ IsBlank ws

/-! ## Theorems -/

/-! ### The event buffer -/

theorem foldl_append_eq (f : Str → Str) (events : List Str) (acc : Str) :
    events.foldl (fun message event => message ++ f event) acc = acc ++ events.flatMap f := by
  induction events generalizing acc with
  | nil => simp
  | cons e es ih => simp [List.foldl_cons, ih, List.flatMap_cons, List.append_assoc]

theorem digest_message_eq (buffer : EventBuffer) :
    digest_message buffer =
      if (natural_rendering buffer).length > 3800
      then (natural_rendering buffer).take 3700 ++ truncation_suffix
      else natural_rendering buffer := by
  unfold digest_message natural_rendering
  rw [foldl_append_eq (fun event => event ++ lit "\n\n")]

theorem truncation_suffix_length : truncation_suffix.length = 50 := by decide!

theorem digest_header_take (n : Int) : (digest_header n).take 4 = lit "📊" := by
  have h : lit "📊 <b>События за последние 10 сек:</b> " =
      lit "📊" ++ lit " <b>События за последние 10 сек:</b> " := by decide!
  have h4 : (lit "📊").length = 4 := by decide!
  unfold digest_header
  rw [h, List.append_assoc, List.append_assoc, List.append_assoc,
    List.take_append_of_le_length (by omega), ← h4, List.take_length]

theorem digest_header_length_ge (n : Int) : 4 ≤ (digest_header n).length := by
  have h := congrArg List.length (digest_header_take n)
  have h4 : (lit "📊").length = 4 := by decide!
  rw [List.length_take, h4] at h
  omega

theorem natural_rendering_take (buffer : EventBuffer) :
    (natural_rendering buffer).take 4 = lit "📊" := by
  unfold natural_rendering
  rw [List.take_append_of_le_length (digest_header_length_ge _), digest_header_take]

theorem digest_message_take (buffer : EventBuffer) :
    (digest_message buffer).take 4 = lit "📊" := by
  rw [digest_message_eq]
  split
  · rename_i h
    rw [List.take_append_of_le_length (by rw [List.length_take]; omega), List.take_take]
    exact natural_rendering_take buffer
  · exact natural_rendering_take buffer

theorem mass_warning_message_take (n : Int) : (mass_warning_message n).take 4 = lit "🚨" := by
  have h : lit "🚨 <b>MASS WARNING</b>\n" = lit "🚨" ++ lit " <b>MASS WARNING</b>\n" := by decide!
  have h4 : (lit "🚨").length = 4 := by decide!
  unfold mass_warning_message
  rw [h, List.append_assoc, List.append_assoc, List.append_assoc, List.append_assoc,
    List.take_append_of_le_length (by omega), ← h4, List.take_length]

theorem digest_ne_mass_warning (buffer : EventBuffer) (n : Int) :
    digest_message buffer ≠ mass_warning_message n := by
  intro h
  have h1 := congrArg (List.take 4) h
  rw [digest_message_take, mass_warning_message_take] at h1
  exact absurd h1 (by decide!)

theorem process_buffer_gate_closed (send : Str → Bool) (now : Int) (buffer : EventBuffer)
    (h : now - buffer.last_send_time < 10) :
    process_buffer send now buffer = (buffer, []) := by
  simp [process_buffer, h]

theorem process_buffer_overload_quiet (send : Str → Bool) (now : Int) (buffer : EventBuffer)
    (hgate : now - buffer.last_send_time ≥ 10) (hne : buffer.events ≠ [])
    (h50 : 50 ≤ buffer.event_count) (hw : now - buffer.last_mass_warning_time < 300) :
    (process_buffer send now buffer).2 = [] := by
  have hg : ¬ (now - buffer.last_send_time < 10) := by omega
  have hw' : ¬ (300 ≤ now - buffer.last_mass_warning_time) := by omega
  simp [process_buffer, hg, hne, h50, hw']

theorem process_buffer_overload_warns (send : Str → Bool) (now : Int) (buffer : EventBuffer)
    (hgate : now - buffer.last_send_time ≥ 10) (hne : buffer.events ≠ [])
    (h50 : 50 ≤ buffer.event_count) (hw : now - buffer.last_mass_warning_time ≥ 300) :
    (process_buffer send now buffer).2 = [mass_warning_message buffer.event_count] := by
  have hg : ¬ (now - buffer.last_send_time < 10) := by omega
  have hw' : 300 ≤ now - buffer.last_mass_warning_time := hw
  by_cases hs : send (mass_warning_message buffer.event_count) = true <;>
    simp [process_buffer, hg, hne, h50, hw', hs]

/-- C1 (code defect): the call of `process_buffer` that `monitor_logs` makes after its
loop goes through the same 10-second gate as every other call.  A run that flushes at
clock value 1000, then buffers one matching line, then stops at clock value 1005 leaves
the loop with one buffered event and hands nothing at all to `send`: the event is
dropped at shutdown. -/
theorem final_flush_is_gated :
    (run_loop literalCompile historyConfig
        [Tick.idle 1000 (fun _ => true),
         Tick.line (lit "Oct 29 01:09:44 host1 bash: HISTORY: PID=999 UID=0 ls")]
        EventBuffer.init).map
        (fun r => (r.1.events.length, r.1.event_count, r.1.last_send_time, r.2))
      = some (1, 1, 1000, []) ∧
    monitor_logs literalCompile historyConfig
        [Tick.idle 1000 (fun _ => true),
         Tick.line (lit "Oct 29 01:09:44 host1 bash: HISTORY: PID=999 UID=0 ls")]
        1005 (fun _ => true)
      = some [] := by
  decide!

theorem natural_rendering_explicit (buffer : EventBuffer) :
    natural_rendering buffer =
      lit "📊 <b>События за последние 10 сек:</b> " ++ to_string buffer.event_count ++
        lit "\n━━━━━━━━━━━━━━━━━━\n\n" ++
        buffer.events.flatMap (fun event => event ++ lit "\n\n") := by
  have e : lit "\n━━━━━━━━━━━━━━━━━━\n\n" = lit "\n" ++ lit "━━━━━━━━━━━━━━━━━━\n\n" := by
    decide!
  unfold natural_rendering digest_header
  rw [e]
  simp only [List.append_assoc]

theorem truncation_suffix_explicit :
    truncation_suffix = lit "\n\n<i>... [сообщение обрезано]</i>" := rfl

theorem mass_warning_message_explicit (n : Int) :
    mass_warning_message n =
      lit "🚨 <b>MASS WARNING</b>\n⚠️ Получено <u>" ++ to_string n ++
        lit " событий</u> за последние 10 секунд\n🔍 Проверьте систему немедленно!" := by
  have e1 : lit "🚨 <b>MASS WARNING</b>\n⚠️ Получено <u>"
      = lit "🚨 <b>MASS WARNING</b>\n" ++ lit "⚠️ Получено <u>" := by decide!
  have e2 : lit " событий</u> за последние 10 секунд\n🔍 Проверьте систему немедленно!"
      = lit " событий</u> за последние 10 секунд\n" ++ lit "🔍 Проверьте систему немедленно!" := by
    decide!
  unfold mass_warning_message
  rw [e1, e2]
  simp only [List.append_assoc]

/-- The digest in the bytes of the source: header, decimal count, rule, then every event
followed by a blank line, cut at 3700 bytes with the notice when longer than 3800. -/
theorem digest_message_explicit (buffer : EventBuffer) (digest : Str)
    (hdigest : digest =
      lit "📊 <b>События за последние 10 сек:</b> " ++ to_string buffer.event_count ++
        lit "\n━━━━━━━━━━━━━━━━━━\n\n" ++
        buffer.events.flatMap (fun event => event ++ lit "\n\n")) :
    digest_message buffer =
      if digest.length > 3800
      then digest.take 3700 ++ lit "\n\n<i>... [сообщение обрезано]</i>"
      else digest := by
  rw [digest_message_eq, truncation_suffix_explicit, natural_rendering_explicit, ← hdigest]

theorem take_four_of_begins (p m : Str) (h : p <+: m) (hlen : 4 ≤ p.length) :
    m.take 4 = p.take 4 := by
  obtain ⟨t, rfl⟩ := h
  exact List.take_append_of_le_length hlen

theorem digest_begins_not_warning (buffer : EventBuffer) :
    ¬ (lit "🚨 <b>MASS WARNING</b>" <+: digest_message buffer) := by
  intro h
  have h1 := take_four_of_begins _ _ h (by decide!)
  rw [digest_message_take] at h1
  exact absurd h1 (by decide!)

theorem warning_begins_not_digest (n : Int) :
    ¬ (lit "📊 <b>События за последние 10 сек:</b>" <+: mass_warning_message n) := by
  intro h
  have h1 := take_four_of_begins _ _ h (by decide!)
  rw [mass_warning_message_take] at h1
  exact absurd h1 (by decide!)

/-- C2: with the gate open and the counter equal to the number of buffered events, a
buffer of 1 to 49 events hands exactly one message to `send`, the digest of the buffered
events: the header `📊 <b>События за последние 10 сек:</b> `, the decimal count, the
rule, then every event in insertion order followed by a blank line, cut at 3700 bytes
with the notice when that is longer than 3800; that message does not begin as a mass
warning.  A buffer of 50 or more events hands over nothing or the one mass-warning
text stating the decimal count, and nothing that begins as a digest. -/
theorem overload_boundary (send : Str → Bool) (now : Int) (buffer : EventBuffer)
    (digest warning : Str)
    (hgate : now - buffer.last_send_time ≥ 10)
    (hinv : buffer.event_count = buffer.events.length)
    (hpos : 1 ≤ buffer.event_count)
    (hdigest : digest =
      lit "📊 <b>События за последние 10 сек:</b> " ++ to_string buffer.event_count ++
        lit "\n━━━━━━━━━━━━━━━━━━\n\n" ++
        buffer.events.flatMap (fun event => event ++ lit "\n\n"))
    (hwarning : warning =
      lit "🚨 <b>MASS WARNING</b>\n⚠️ Получено <u>" ++ to_string buffer.event_count ++
        lit " событий</u> за последние 10 секунд\n🔍 Проверьте систему немедленно!") :
    (buffer.event_count ≤ 49 →
      (process_buffer send now buffer).2 =
        [if digest.length > 3800
         then digest.take 3700 ++ lit "\n\n<i>... [сообщение обрезано]</i>"
         else digest] ∧
      (∀ m ∈ (process_buffer send now buffer).2, ¬ (lit "🚨 <b>MASS WARNING</b>" <+: m)) ∧
      ∀ n, digest_message buffer ≠ mass_warning_message n) ∧
    (50 ≤ buffer.event_count →
      ((process_buffer send now buffer).2 = [] ∨
       (process_buffer send now buffer).2 = [warning]) ∧
      (∀ m ∈ (process_buffer send now buffer).2,
        ¬ (lit "📊 <b>События за последние 10 сек:</b>" <+: m)) ∧
      ∀ b, mass_warning_message buffer.event_count ≠ digest_message b) := by
  have hne : buffer.events.isEmpty = false := by
    cases hev : buffer.events with
    | nil => rw [hev] at hinv; simp at hinv; omega
    | cons e es => rfl
  have hg : ¬ (now - buffer.last_send_time < 10) := by omega
  have hw : warning = mass_warning_message buffer.event_count := by
    rw [hwarning, mass_warning_message_explicit]
  constructor
  · intro h49
    have h50 : ¬ (buffer.event_count ≥ 50) := by omega
    have hsent : (process_buffer send now buffer).2 = [digest_message buffer] := by
      simp [process_buffer, hg, hne, h50]
    refine ⟨?_, ?_, fun n => digest_ne_mass_warning buffer n⟩
    · rw [hsent, digest_message_explicit buffer digest hdigest]
    · intro m hm
      rw [hsent, List.mem_singleton] at hm
      rw [hm]
      exact digest_begins_not_warning buffer
  · intro h50
    have h50' : buffer.event_count ≥ 50 := h50
    have hsent : (process_buffer send now buffer).2 = [] ∨
        (process_buffer send now buffer).2 = [mass_warning_message buffer.event_count] := by
      by_cases hw300 : now - buffer.last_mass_warning_time ≥ 300
      · right
        by_cases hs : send (mass_warning_message buffer.event_count) = true <;>
          simp [process_buffer, hg, hne, h50', hw300, hs]
      · left
        simp [process_buffer, hg, hne, h50', hw300]
    refine ⟨?_, ?_, fun b h => digest_ne_mass_warning b _ h.symm⟩
    · rw [hw]
      exact hsent
    · intro m hm
      rcases hsent with h | h
      · rw [h] at hm
        cases hm
      · rw [h, List.mem_singleton] at hm
        rw [hm]
        exact warning_begins_not_digest _

/-- C2 on concrete buffers: two events give the digest that lists them in order, 49
events give a digest stating 49, and 50 events give, at most, the mass warning stating
50. -/
theorem overload_boundary_witness :
    ((1000 : Int) - (bufferOf [lit "first", lit "second"] 0 0).last_send_time ≥ 10 ∧
     (bufferOf [lit "first", lit "second"] 0 0).event_count
       = (bufferOf [lit "first", lit "second"] 0 0).events.length ∧
     1 ≤ (bufferOf [lit "first", lit "second"] 0 0).event_count ∧
     (bufferOf [lit "first", lit "second"] 0 0).event_count ≤ 49) ∧
    (process_buffer (fun _ => true) 1000 (bufferOf [lit "first", lit "second"] 0 0)).2
      = [lit "📊 <b>События за последние 10 сек:</b> 2\n━━━━━━━━━━━━━━━━━━\n\nfirst\n\nsecond\n\n"] ∧
    (process_buffer (fun _ => true) 1000 (filledBuffer 49 (lit "e") 0 0)).2
      = [lit "📊 <b>События за последние 10 сек:</b> 49\n━━━━━━━━━━━━━━━━━━\n\n" ++
          (List.replicate 49 (lit "e\n\n")).flatten] ∧
    ((process_buffer (fun _ => true) 1000 (filledBuffer 50 (lit "e") 0 0)).2 = [] ∨
     (process_buffer (fun _ => true) 1000 (filledBuffer 50 (lit "e") 0 0)).2
      = [lit "🚨 <b>MASS WARNING</b>\n⚠️ Получено <u>50 событий</u> за последние 10 секунд\n🔍 Проверьте систему немедленно!"]) ∧
    (process_buffer (fun _ => true) 1000 (filledBuffer 50 (lit "e") 0 0)).2 ≠ [] :=
  ⟨by decide!,
   ((overload_boundary (fun _ => true) 1000 (bufferOf [lit "first", lit "second"] 0 0)
      (lit "📊 <b>События за последние 10 сек:</b> 2\n━━━━━━━━━━━━━━━━━━\n\nfirst\n\nsecond\n\n")
      (lit "🚨 <b>MASS WARNING</b>\n⚠️ Получено <u>2 событий</u> за последние 10 секунд\n🔍 Проверьте систему немедленно!")
      (by decide!) (by decide!) (by decide!) (by decide!) (by decide!)).1
      (by decide!)).1.trans (by decide!),
   ((overload_boundary (fun _ => true) 1000 (filledBuffer 49 (lit "e") 0 0)
      (lit "📊 <b>События за последние 10 сек:</b> 49\n━━━━━━━━━━━━━━━━━━\n\n" ++
          (List.replicate 49 (lit "e\n\n")).flatten)
      (lit "🚨 <b>MASS WARNING</b>\n⚠️ Получено <u>49 событий</u> за последние 10 секунд\n🔍 Проверьте систему немедленно!")
      (by decide!) (by decide!) (by decide!) (by decide!) (by decide!)).1
      (by decide!)).1.trans (by decide!),
   ((overload_boundary (fun _ => true) 1000 (filledBuffer 50 (lit "e") 0 0)
      (lit "📊 <b>События за последние 10 сек:</b> 50\n━━━━━━━━━━━━━━━━━━\n\n" ++
          (List.replicate 50 (lit "e\n\n")).flatten)
      (lit "🚨 <b>MASS WARNING</b>\n⚠️ Получено <u>50 событий</u> за последние 10 секунд\n🔍 Проверьте систему немедленно!")
      (by decide!) (by decide!) (by decide!) (by decide!) (by decide!)).2
      (by decide!)).1,
   by decide!⟩

/-- C3 as stated fails: when the transport reports a failure, the mass warning for 60
events is handed to `send` but `last_mass_warning_time` keeps its old value, and a second
batch of 60 flushed 10 seconds later hands over another warning. -/
theorem mass_warning_time_kept_on_failed_send :
    ((1000 : Int) - (filledBuffer 60 (lit "e") 0 0).last_send_time ≥ 10 ∧
     (filledBuffer 60 (lit "e") 0 0).event_count ≥ 50 ∧
     (1000 : Int) - (filledBuffer 60 (lit "e") 0 0).last_mass_warning_time ≥ 300) ∧
    (process_buffer (fun _ => false) 1000 (filledBuffer 60 (lit "e") 0 0)).2
      = [mass_warning_message 60] ∧
    (process_buffer (fun _ => false) 1000 (filledBuffer 60 (lit "e") 0 0)).1.last_mass_warning_time
      ≠ 1000 ∧
    (process_buffer (fun _ => false) 1010
      { (process_buffer (fun _ => false) 1000 (filledBuffer 60 (lit "e") 0 0)).1 with
        events := List.replicate 60 (lit "e"), event_count := 60 }).2
      = [mass_warning_message 60] := by
  decide!

theorem to_string_infix_mass_warning (n : Int) : to_string n <:+: mass_warning_message n := by
  unfold mass_warning_message
  exact ⟨lit "🚨 <b>MASS WARNING</b>\n" ++ lit "⚠️ Получено <u>",
    lit " событий</u> за последние 10 секунд\n" ++ lit "🔍 Проверьте систему немедленно!",
    by simp [List.append_assoc]⟩

/-- C3, amended: with the gate open, the counter equal to the number of buffered events
and at least 50 of them, if 300 seconds have passed since `last_mass_warning_time` exactly
one message is handed to `send`, it contains the decimal event count, and
`last_mass_warning_time` becomes `now` when that send succeeds and keeps its value when it
fails; otherwise nothing is sent and `last_mass_warning_time` is unchanged.  After a
warning whose send succeeded at `now`, a further batch of 50 or more events flushed less
than 300 seconds after `now` sends nothing, and one flushed 300 seconds after `now` or
later sends a new warning. -/
theorem mass_warning_cooldown (send : Str → Bool) (now : Int) (buffer : EventBuffer)
    (hgate : now - buffer.last_send_time ≥ 10)
    (hinv : buffer.event_count = buffer.events.length)
    (h50 : 50 ≤ buffer.event_count) :
    (now - buffer.last_mass_warning_time ≥ 300 →
      (process_buffer send now buffer).2 = [mass_warning_message buffer.event_count] ∧
      to_string buffer.event_count <:+: mass_warning_message buffer.event_count ∧
      (send (mass_warning_message buffer.event_count) = true →
        (process_buffer send now buffer).1.last_mass_warning_time = now) ∧
      (send (mass_warning_message buffer.event_count) = false →
        (process_buffer send now buffer).1.last_mass_warning_time
          = buffer.last_mass_warning_time)) ∧
    (now - buffer.last_mass_warning_time < 300 →
      (process_buffer send now buffer).2 = [] ∧
      (process_buffer send now buffer).1.last_mass_warning_time
        = buffer.last_mass_warning_time) ∧
    (now - buffer.last_mass_warning_time ≥ 300 →
      send (mass_warning_message buffer.event_count) = true →
      ∀ (send2 : Str → Bool) (now2 : Int) (batch : List Str), 50 ≤ batch.length →
        (now2 - now < 300 →
          (process_buffer send2 now2
            { (process_buffer send now buffer).1 with
              events := batch, event_count := batch.length }).2 = []) ∧
        (now2 - now ≥ 300 →
          (process_buffer send2 now2
            { (process_buffer send now buffer).1 with
              events := batch, event_count := batch.length }).2
            = [mass_warning_message batch.length])) := by
  have hne : buffer.events.isEmpty = false := by
    cases hev : buffer.events with
    | nil => rw [hev] at hinv; simp at hinv; omega
    | cons e es => rfl
  have hg : ¬ (now - buffer.last_send_time < 10) := by omega
  have h50' : buffer.event_count ≥ 50 := h50
  refine ⟨fun hw => ⟨?_, to_string_infix_mass_warning _, ?_, ?_⟩, fun hw => ?_, ?_⟩
  · by_cases hs : send (mass_warning_message buffer.event_count) = true <;>
      simp [process_buffer, hg, hne, h50', hw, hs]
  · intro hs
    simp [process_buffer, hg, hne, h50', hw, hs]
  · intro hs
    simp [process_buffer, hg, hne, h50', hw, hs]
  · have hw' : ¬ (now - buffer.last_mass_warning_time ≥ 300) := by omega
    simp [process_buffer, hg, hne, h50', hw']
  · intro hw hs send2 now2 batch hb
    have hbne : batch ≠ [] := by
      intro h
      rw [h] at hb
      simp at hb
    have hb' : (50 : Int) ≤ (batch.length : Int) := by omega
    have h1 : (process_buffer send now buffer).1.last_send_time = now := by
      simp [process_buffer, hg]
    have h2 : (process_buffer send now buffer).1.last_mass_warning_time = now := by
      simp [process_buffer, hg, hne, h50', hw, hs]
    generalize (process_buffer send now buffer).1 = r at h1 h2
    constructor
    · intro hlt
      by_cases hg2 : now2 - now < 10
      · rw [process_buffer_gate_closed _ _ _ (by simpa [h1] using hg2)]
      · exact process_buffer_overload_quiet _ _ _ (by simp only [h1]; omega) hbne hb'
          (by simp only [h2]; omega)
    · intro hge
      exact process_buffer_overload_warns _ _ _ (by simp only [h1]; omega) hbne hb'
        (by simp only [h2]; omega)

/-- C3, amended, on the scenario of 60 events: a warning stating 60 is sent at clock value
1000; with that send successful a second batch of 60 flushed at 1250 sends nothing and a
batch flushed at 1300 sends a new warning. -/
theorem mass_warning_cooldown_witness :
    ((1000 : Int) - (filledBuffer 60 (lit "e") 0 0).last_send_time ≥ 10 ∧
     (filledBuffer 60 (lit "e") 0 0).event_count = (filledBuffer 60 (lit "e") 0 0).events.length ∧
     50 ≤ (filledBuffer 60 (lit "e") 0 0).event_count ∧
     (1000 : Int) - (filledBuffer 60 (lit "e") 0 0).last_mass_warning_time ≥ 300) ∧
    (process_buffer (fun _ => true) 1000 (filledBuffer 60 (lit "e") 0 0)).2
      = [mass_warning_message (filledBuffer 60 (lit "e") 0 0).event_count] ∧
    lit "60" <:+: mass_warning_message (filledBuffer 60 (lit "e") 0 0).event_count ∧
    (process_buffer (fun _ => true) 1250
      { (process_buffer (fun _ => true) 1000 (filledBuffer 60 (lit "e") 0 0)).1 with
        events := List.replicate 60 (lit "e"),
        event_count := (List.replicate 60 (lit "e")).length }).2 = [] ∧
    (process_buffer (fun _ => true) 1300
      { (process_buffer (fun _ => true) 1000 (filledBuffer 60 (lit "e") 0 0)).1 with
        events := List.replicate 60 (lit "e"),
        event_count := (List.replicate 60 (lit "e")).length }).2
      = [mass_warning_message (List.replicate 60 (lit "e")).length] :=
  ⟨by decide!,
   ((mass_warning_cooldown (fun _ => true) 1000 (filledBuffer 60 (lit "e") 0 0)
      (by decide!) (by decide!) (by decide!)).1 (by decide!)).1,
   ((mass_warning_cooldown (fun _ => true) 1000 (filledBuffer 60 (lit "e") 0 0)
      (by decide!) (by decide!) (by decide!)).1 (by decide!)).2.1,
   ((mass_warning_cooldown (fun _ => true) 1000 (filledBuffer 60 (lit "e") 0 0)
      (by decide!) (by decide!) (by decide!)).2.2 (by decide!) rfl
      (fun _ => true) 1250 (List.replicate 60 (lit "e")) (by decide!)).1 (by decide!),
   ((mass_warning_cooldown (fun _ => true) 1000 (filledBuffer 60 (lit "e") 0 0)
      (by decide!) (by decide!) (by decide!)).2.2 (by decide!) rfl
      (fun _ => true) 1300 (List.replicate 60 (lit "e")) (by decide!)).2 (by decide!)⟩

/-- C4: with the gate open and 1 to 49 buffered events (the counter equal to their
number), let `rendering` be the natural rendering: the header
`📊 <b>События за последние 10 сек:</b> `, the decimal event count, the rule, then every
buffered event in insertion order, each followed by a blank line.  The one message
handed to `send` is `rendering` itself when it has at most 3800 bytes, and otherwise its
first 3700 bytes followed by `\n\n<i>... [сообщение обрезано]</i>`; no message longer
than 3800 bytes is handed over. -/
theorem digest_truncation (send : Str → Bool) (now : Int) (buffer : EventBuffer)
    (rendering : Str)
    (hgate : now - buffer.last_send_time ≥ 10)
    (hinv : buffer.event_count = buffer.events.length)
    (hpos : 1 ≤ buffer.event_count) (h49 : buffer.event_count ≤ 49)
    (hrendering : rendering =
      lit "📊 <b>События за последние 10 сек:</b> " ++ to_string buffer.event_count ++
        lit "\n━━━━━━━━━━━━━━━━━━\n\n" ++
        buffer.events.flatMap (fun event => event ++ lit "\n\n")) :
    (process_buffer send now buffer).2 =
      [if rendering.length > 3800
       then rendering.take 3700 ++ lit "\n\n<i>... [сообщение обрезано]</i>"
       else rendering] ∧
    (lit "\n\n<i>... [сообщение обрезано]</i>").length = 50 ∧
    ∀ m ∈ (process_buffer send now buffer).2, m.length ≤ 3800 := by
  have hne : buffer.events ≠ [] := by
    intro h
    rw [h] at hinv
    simp at hinv
    omega
  have hg : ¬ (now - buffer.last_send_time < 10) := by omega
  have h50 : ¬ (50 ≤ buffer.event_count) := by omega
  have hsent : (process_buffer send now buffer).2 = [digest_message buffer] := by
    simp [process_buffer, hg, hne, h50]
  have hlen : (lit "\n\n<i>... [сообщение обрезано]</i>").length = 50 := by decide!
  rw [hsent, digest_message_explicit buffer rendering hrendering]
  refine ⟨rfl, hlen, ?_⟩
  intro m hm
  rw [List.mem_singleton] at hm
  subst hm
  split
  · rename_i h
    rw [List.length_append, List.length_take, hlen]
    omega
  · rename_i h
    omega

/-- C4 on concrete buffers: two short events are sent as rendered, in order; 40 events
of 100 bytes render to more than 3800 bytes and are sent as the first 3700 bytes plus the notice,
3750 bytes in all. -/
theorem digest_truncation_witness :
    ((1000 : Int) - (bufferOf [lit "first", lit "second"] 0 0).last_send_time ≥ 10 ∧
     (bufferOf [lit "first", lit "second"] 0 0).event_count
       = (bufferOf [lit "first", lit "second"] 0 0).events.length ∧
     1 ≤ (bufferOf [lit "first", lit "second"] 0 0).event_count ∧
     (bufferOf [lit "first", lit "second"] 0 0).event_count ≤ 49) ∧
    (process_buffer (fun _ => true) 1000 (bufferOf [lit "first", lit "second"] 0 0)).2
      = [lit "📊 <b>События за последние 10 сек:</b> 2\n━━━━━━━━━━━━━━━━━━\n\nfirst\n\nsecond\n\n"] ∧
    (lit "📊 <b>События за последние 10 сек:</b> 40\n━━━━━━━━━━━━━━━━━━\n\n" ++
        (List.replicate 40 (List.replicate 100 97 ++ lit "\n\n")).flatten).length > 3800 ∧
    (process_buffer (fun _ => true) 1000 (filledBuffer 40 (List.replicate 100 97) 0 0)).2
      = [(lit "📊 <b>События за последние 10 сек:</b> 40\n━━━━━━━━━━━━━━━━━━\n\n" ++
          (List.replicate 40 (List.replicate 100 97 ++ lit "\n\n")).flatten).take 3700 ++
         lit "\n\n<i>... [сообщение обрезано]</i>"] ∧
    (∀ m ∈ (process_buffer (fun _ => true) 1000
        (filledBuffer 40 (List.replicate 100 97) 0 0)).2, m.length = 3750) ∧
    ∀ m ∈ (process_buffer (fun _ => true) 1000
        (filledBuffer 40 (List.replicate 100 97) 0 0)).2, m.length ≤ 3800 :=
  ⟨by decide!,
   (digest_truncation (fun _ => true) 1000 (bufferOf [lit "first", lit "second"] 0 0)
      (lit "📊 <b>События за последние 10 сек:</b> 2\n━━━━━━━━━━━━━━━━━━\n\nfirst\n\nsecond\n\n")
      (by decide!) (by decide!) (by decide!) (by decide!) (by decide!)).1.trans (by decide!),
   by decide!,
   (digest_truncation (fun _ => true) 1000 (filledBuffer 40 (List.replicate 100 97) 0 0)
      (lit "📊 <b>События за последние 10 сек:</b> 40\n━━━━━━━━━━━━━━━━━━\n\n" ++
          (List.replicate 40 (List.replicate 100 97 ++ lit "\n\n")).flatten)
      (by decide!) (by decide!) (by decide!) (by decide!) (by decide!)).1.trans (by decide!),
   by decide!,
   (digest_truncation (fun _ => true) 1000 (filledBuffer 40 (List.replicate 100 97) 0 0)
      (lit "📊 <b>События за последние 10 сек:</b> 40\n━━━━━━━━━━━━━━━━━━\n\n" ++
          (List.replicate 40 (List.replicate 100 97 ++ lit "\n\n")).flatten)
      (by decide!) (by decide!) (by decide!) (by decide!) (by decide!)).2.2⟩

/-- C5: whenever the gate is open, after `process_buffer` the event list is empty, the
counter is 0 and `last_send_time` is `now`, for every buffer and every outcome of the
transport; and an empty buffer hands nothing to `send`. -/
theorem window_reset (send : Str → Bool) (now : Int) (buffer : EventBuffer)
    (hgate : now - buffer.last_send_time ≥ 10) :
    (process_buffer send now buffer).1.events = [] ∧
    (process_buffer send now buffer).1.event_count = 0 ∧
    (process_buffer send now buffer).1.last_send_time = now ∧
    (buffer.events = [] → (process_buffer send now buffer).2 = []) := by
  have hg : ¬ (now - buffer.last_send_time < 10) := by omega
  refine ⟨?_, ?_, ?_, ?_⟩
  · simp [process_buffer, hg]
  · simp [process_buffer, hg]
  · simp [process_buffer, hg]
  · intro he
    simp [process_buffer, hg, he]

/-- C5 on a digest whose delivery fails: the window is reset all the same. -/
theorem window_reset_witness :
    (1000 : Int) - (filledBuffer 3 (lit "e") 0 0).last_send_time ≥ 10 ∧
    (process_buffer (fun _ => false) 1000 (filledBuffer 3 (lit "e") 0 0)).1.events = [] ∧
    (process_buffer (fun _ => false) 1000 (filledBuffer 3 (lit "e") 0 0)).1.event_count = 0 ∧
    (process_buffer (fun _ => false) 1000 (filledBuffer 3 (lit "e") 0 0)).1.last_send_time
      = 1000 ∧
    ((filledBuffer 3 (lit "e") 0 0).events = [] →
      (process_buffer (fun _ => false) 1000 (filledBuffer 3 (lit "e") 0 0)).2 = []) :=
  ⟨by decide!,
   window_reset (fun _ => false) 1000 (filledBuffer 3 (lit "e") 0 0) (by decide!)⟩

/-- C6: a call made less than 10 seconds after `last_send_time` hands nothing to `send`
and returns the buffer as it was, in every field; so a call made less than 10 seconds
after a call that passed the gate is a no-op. -/
theorem time_gate (send : Str → Bool) (now : Int) (buffer : EventBuffer) :
    (now - buffer.last_send_time < 10 → process_buffer send now buffer = (buffer, [])) ∧
    (∀ (send0 : Str → Bool) (now0 : Int) (buffer0 : EventBuffer),
      now0 - buffer0.last_send_time ≥ 10 → now - now0 < 10 →
      process_buffer send now (process_buffer send0 now0 buffer0).1
        = ((process_buffer send0 now0 buffer0).1, [])) := by
  refine ⟨process_buffer_gate_closed send now buffer, ?_⟩
  intro send0 now0 buffer0 h0 h1
  apply process_buffer_gate_closed
  rw [(window_reset send0 now0 buffer0 h0).2.2.1]
  exact h1

/-- C6 on a buffer of three events flushed at 1000 and polled again at 1009. -/
theorem time_gate_witness :
    ((1005 : Int) - (filledBuffer 3 (lit "e") 1000 0).last_send_time < 10 ∧
     (1000 : Int) - (filledBuffer 3 (lit "e") 0 0).last_send_time ≥ 10 ∧
     (1009 : Int) - 1000 < 10) ∧
    process_buffer (fun _ => true) 1005 (filledBuffer 3 (lit "e") 1000 0)
      = (filledBuffer 3 (lit "e") 1000 0, []) ∧
    process_buffer (fun _ => true) 1009
        (process_buffer (fun _ => true) 1000 (filledBuffer 3 (lit "e") 0 0)).1
      = ((process_buffer (fun _ => true) 1000 (filledBuffer 3 (lit "e") 0 0)).1, []) :=
  ⟨by decide!,
   (time_gate (fun _ => true) 1005 (filledBuffer 3 (lit "e") 1000 0)).1 (by decide!),
   (time_gate (fun _ => true) 1009 (filledBuffer 3 (lit "e") 1000 0)).2
     (fun _ => true) 1000 (filledBuffer 3 (lit "e") 0 0) (by decide!) (by decide!)⟩

/-! ### The monitor loop and the classifier at particular lines -/

theorem monitor_line_of_formatted (compile : Str → Re) (config : Config)
    (buffer : EventBuffer) (line formatted : Str)
    (hf : format_log_line line = some formatted) :
    monitor_line compile config buffer line =
      some (if regex_search (compile config.pattern) line = true ∧
               (config.exceptions = [] ∨ regex_search (compile config.exceptions) line = false)
            then { buffer with events := buffer.events ++ [formatted],
                               event_count := buffer.event_count + 1 }
            else buffer) := by
  unfold monitor_line
  simp only [hf]
  cases hm : regex_search (compile config.pattern) line <;>
    cases hx : regex_search (compile config.exceptions) line <;>
    cases he : config.exceptions <;> simp

/-- C7 (code defect, the one of C9): the line `Oct 29 01:09:44 host1 kernel:` is matched
by the inclusion pattern `kernel` and no exclusion is configured, yet the step does not
append it to the buffer: `format_log_line` throws and the step ends by the exception. -/
theorem matched_line_not_buffered :
    regex_search (literalCompile kernelConfig.pattern) (lit "Oct 29 01:09:44 host1 kernel:")
      = true ∧
    kernelConfig.exceptions = [] ∧
    monitor_line literalCompile kernelConfig EventBuffer.init
      (lit "Oct 29 01:09:44 host1 kernel:") = none := by
  decide!

/-- C9 (code defect): on a line whose body ends with `kernel:` the marker is found at
offset 0 of the 7-byte body, the start offset 0 + 8 lies past the end of the body,
`substr` throws and `format_log_line` returns no message; the same on the bare line
`kernel:`. -/
theorem kernel_offset_out_of_range :
    (parse_log_line (html_escape (lit "Oct 29 01:09:44 host1 kernel:"))).rest = lit "kernel:" ∧
    find (lit "kernel:") (lit "kernel:") = some 0 ∧
    (lit "kernel:").length = 7 ∧
    substr (lit "kernel:") (0 + 8) = none ∧
    format_log_line (lit "Oct 29 01:09:44 host1 kernel:") = none ∧
    format_log_line (lit "kernel:") = none := by
  decide!

/-- C10 (code defect): on `Oct 29 01:09:44 host1 bash: HISTORY: ls` the body contains
`HISTORY:`, the PID/UID/command pattern does not match, and `format_log_line` returns the
empty string: no icon, no header, no body. -/
theorem history_fallback_is_empty :
    (find (lit "HISTORY:")
      (parse_log_line (html_escape (lit "Oct 29 01:09:44 host1 bash: HISTORY: ls"))).rest).isSome
      = true ∧
    (regex_search_m history_regex
      (parse_log_line (html_escape (lit "Oct 29 01:09:44 host1 bash: HISTORY: ls"))).rest).isSome
      = false ∧
    format_log_line (lit "Oct 29 01:09:44 host1 bash: HISTORY: ls") = some [] := by
  decide!

/-! ### Safe and escaped text -/

theorem okAt_iff (ok : Str → UInt8 → Str → Bool) (s : Str) :
    (∀ i, i < s.length → okAt ok s i = true) ↔
      ∀ pre c post, s = pre ++ c :: post → ok pre c post = true := by
  constructor
  · intro h pre c post hs
    have hi : pre.length < s.length := by rw [hs]; simp
    have h1 := h pre.length hi
    unfold okAt at h1
    rw [hs] at h1
    simpa using h1
  · intro h i _
    unfold okAt
    cases hd : s.drop i with
    | nil => rfl
    | cons c post =>
      apply h
      rw [← hd, List.take_append_drop]

theorem any_isPrefixOf_append (ts : List Str) (a b : Str)
    (h : ts.any (fun t => t.isPrefixOf a) = true) :
    ts.any (fun t => t.isPrefixOf (a ++ b)) = true := by
  rw [List.any_eq_true] at h ⊢
  obtain ⟨t, ht, hp⟩ := h
  refine ⟨t, ht, ?_⟩
  rw [List.isPrefixOf_iff_prefix] at hp ⊢
  exact hp.trans (List.prefix_append a b)

theorem any_isSuffixOf_append (ts : List Str) (a b : Str)
    (h : ts.any (fun t => t.isSuffixOf b) = true) :
    ts.any (fun t => t.isSuffixOf (a ++ b)) = true := by
  rw [List.any_eq_true] at h ⊢
  obtain ⟨t, ht, hp⟩ := h
  refine ⟨t, ht, ?_⟩
  rw [List.isSuffixOf_iff_suffix] at hp ⊢
  exact hp.trans (List.suffix_append a b)

theorem byteOk_append_right (pre : Str) (c : UInt8) (post extra : Str)
    (h : byteOk pre c post = true) : byteOk pre c (post ++ extra) = true := by
  unfold byteOk at h ⊢
  split_ifs at h ⊢
  · exact any_isPrefixOf_append tags (c :: post) extra h
  · exact h
  · exact any_isPrefixOf_append entities (c :: post) extra h
  · rfl

theorem byteOk_append_left (extra pre : Str) (c : UInt8) (post : Str)
    (h : byteOk pre c post = true) : byteOk (extra ++ pre) c post = true := by
  unfold byteOk at h ⊢
  split_ifs at h ⊢
  · exact h
  · rw [List.append_assoc]
    exact any_isSuffixOf_append tags extra (pre ++ [c]) h
  · exact h
  · rfl

theorem contentOk_append_right (pre : Str) (c : UInt8) (post extra : Str)
    (h : contentOk pre c post = true) : contentOk pre c (post ++ extra) = true := by
  unfold contentOk at h ⊢
  simp only [Bool.and_eq_true, Bool.or_eq_true] at h ⊢
  refine ⟨h.1, ?_⟩
  rcases h.2 with h2 | h2
  · exact Or.inl h2
  · exact Or.inr (any_isPrefixOf_append entities (c :: post) extra h2)

/-- Splitting an occurrence of a byte in a concatenation: it lies in the left or in the
right part. -/
theorem append_eq_split {a b pre post : Str} {c : UInt8} (h : a ++ b = pre ++ c :: post) :
    (∃ xs, a = pre ++ c :: xs ∧ post = xs ++ b) ∨ (∃ ys, pre = a ++ ys ∧ b = ys ++ c :: post) := by
  rw [List.append_eq_append_iff] at h
  rcases h with ⟨a', h1, h2⟩ | ⟨c', h1, h2⟩
  · exact Or.inr ⟨a', h1, h2⟩
  · cases c' with
    | nil =>
      right
      refine ⟨[], ?_, ?_⟩
      · simpa using h1.symm
      · simpa using h2.symm
    | cons x xs =>
      left
      simp only [List.cons_append, List.cons.injEq] at h2
      obtain ⟨rfl, rfl⟩ := h2
      exact ⟨xs, h1, rfl⟩

theorem safe_append {a b : Str} (ha : Safe a) (hb : Safe b) : Safe (a ++ b) := by
  unfold Safe at *
  rw [okAt_iff] at *
  intro pre c post h
  rcases append_eq_split h with ⟨xs, h1, rfl⟩ | ⟨ys, rfl, h2⟩
  · exact byteOk_append_right pre c xs b (ha pre c xs h1)
  · exact byteOk_append_left a ys c post (hb ys c post h2)

theorem esc_append {a b : Str} (ha : Esc a) (hb : Esc b) : Esc (a ++ b) := by
  unfold Esc at *
  rw [okAt_iff] at *
  intro pre c post h
  rcases append_eq_split h with ⟨xs, h1, rfl⟩ | ⟨ys, rfl, h2⟩
  · exact contentOk_append_right pre c xs b (ha pre c xs h1)
  · exact hb ys c post h2

theorem esc_nil : Esc [] := by decide

theorem esc_safe {s : Str} (h : Esc s) : Safe s := by
  unfold Esc Safe at *
  rw [okAt_iff] at *
  intro pre c post hs
  have hc := h pre c post hs
  unfold contentOk at hc
  simp only [Bool.and_eq_true, Bool.or_eq_true, bne_iff_ne, ne_eq] at hc
  unfold byteOk
  rw [if_neg hc.1.1, if_neg hc.1.2]
  split_ifs with h38
  · rcases hc.2 with h2 | h2
    · exact absurd h38 h2
    · exact h2
  · rfl

theorem esc_suffix {a b : Str} (h : Esc (a ++ b)) : Esc b := by
  unfold Esc at *
  rw [okAt_iff] at *
  intro pre c post hs
  exact h (a ++ pre) c post (by rw [hs, List.append_assoc])

theorem esc_of_plain {s : Str} (h : ∀ c ∈ s, plainByte c) : Esc s := by
  unfold Esc
  rw [okAt_iff]
  intro pre c post hs
  have hc := h c (by rw [hs]; simp)
  unfold contentOk
  simp only [Bool.and_eq_true, Bool.or_eq_true, bne_iff_ne, ne_eq]
  exact ⟨⟨hc.2.1, hc.2.2⟩, Or.inl hc.1⟩

theorem entity_tail_within (tail post b : Str) (h : tail <+: post ++ b)
    (htail : ∀ x ∈ tail, isSpace x = false)
    (hb : b = [] ∨ ∃ d ds, b = d :: ds ∧ isSpace d = true) : tail <+: post := by
  induction tail generalizing post with
  | nil => exact List.nil_prefix
  | cons x xs ih =>
    cases post with
    | nil =>
      rcases hb with rfl | ⟨d, ds, rfl, hd⟩
      · simp at h
      · simp only [List.nil_append] at h
        rw [List.cons_prefix_cons] at h
        have := htail x (by simp)
        rw [h.1, hd] at this
        cases this
    | cons y ys =>
      simp only [List.cons_append] at h
      rw [List.cons_prefix_cons] at h ⊢
      exact ⟨h.1, ih ys h.2 (fun z hz => htail z (by simp [hz]))⟩

theorem entity_shape (e : Str) (he : e ∈ entities) :
    ∃ tail, e = 38 :: tail ∧ ∀ x ∈ tail, isSpace x = false := by
  have h : entities = [[38, 97, 109, 112, 59], [38, 108, 116, 59], [38, 103, 116, 59]] := by
    decide!
  rw [h] at he
  simp only [List.mem_cons, List.mem_singleton, List.not_mem_nil, or_false] at he
  rcases he with rfl | rfl | rfl
  · exact ⟨_, rfl, by decide⟩
  · exact ⟨_, rfl, by decide⟩
  · exact ⟨_, rfl, by decide⟩

theorem esc_cut {a h b : Str} (he : Esc (a ++ (h ++ b)))
    (hb : b = [] ∨ ∃ d ds, b = d :: ds ∧ isSpace d = true) : Esc h := by
  unfold Esc at *
  rw [okAt_iff] at *
  intro pre c post hs
  have hc := he (a ++ pre) c (post ++ b) (by rw [hs]; simp [List.append_assoc])
  unfold contentOk at hc ⊢
  simp only [Bool.and_eq_true, Bool.or_eq_true] at hc ⊢
  refine ⟨hc.1, ?_⟩
  rcases hc.2 with h2 | h2
  · exact Or.inl h2
  · right
    rw [List.any_eq_true] at h2 ⊢
    obtain ⟨e, hmem, hp⟩ := h2
    refine ⟨e, hmem, ?_⟩
    rw [List.isPrefixOf_iff_prefix] at hp ⊢
    obtain ⟨tail, rfl, htail⟩ := entity_shape e hmem
    rw [List.cons_prefix_cons] at hp ⊢
    exact ⟨hp.1, entity_tail_within tail post b hp.2 htail hb⟩

theorem esc_escapeByte (c : UInt8) : Esc (escapeByte c) := by
  unfold escapeByte
  split_ifs with h1 h2 h3
  · decide!
  · decide!
  · decide!
  · apply esc_of_plain
    intro x hx
    rw [List.mem_singleton] at hx
    subst hx
    exact ⟨h1, h2, h3⟩

theorem esc_html_escape (data : Str) : Esc (html_escape data) := by
  unfold html_escape
  induction data with
  | nil => exact esc_nil
  | cons c cs ih =>
    rw [List.flatMap_cons]
    exact esc_append (esc_escapeByte c) ih

/-! ### The matcher against its declarative reading -/

theorem starRun_sound (body : (MState → Option MState) → MState → Option MState)
    (R : MState → MState → Prop)
    (hbody : ∀ k s res, body k s = some res → ∃ t, R s t ∧ k t = some res)
    (k : MState → Option MState) (fuel : Nat) :
    ∀ s res, starRun body k fuel s = some res → ∃ t, Iter R s t ∧ k t = some res := by
  induction fuel with
  | zero =>
    intro s res h
    exact ⟨s, Iter.done s, h⟩
  | succ n ih =>
    intro s res h
    simp only [starRun] at h
    split at h
    · rename_i r hr
      obtain ⟨m, hm, hk⟩ := hbody _ _ _ hr
      split at hk
      · obtain ⟨t, ht, hkt⟩ := ih m r hk
        exact ⟨t, Iter.more hm ht, hkt.trans h⟩
      · cases hk
    · exact ⟨s, Iter.done s, h⟩

theorem run_sound (r : Re) :
    ∀ (k : MState → Option MState) (s res : MState),
      r.run k s = some res → ∃ t, r.den s t ∧ k t = some res := by
  induction r with
  | eps =>
    intro k s res h
    exact ⟨s, rfl, h⟩
  | cls p =>
    intro k s res h
    simp only [Re.run] at h
    split at h
    · cases h
    · rename_i c cs hrem
      split at h
      · rename_i hp
        exact ⟨_, ⟨c, cs, hrem, hp, rfl⟩, h⟩
      · cases h
  | seq a b iha ihb =>
    intro k s res h
    obtain ⟨m, hm, h2⟩ := iha _ _ _ h
    obtain ⟨t, ht, h3⟩ := ihb _ _ _ h2
    exact ⟨t, ⟨m, hm, ht⟩, h3⟩
  | alt a b iha ihb =>
    intro k s res h
    simp only [Re.run] at h
    split at h
    · rename_i r hr
      obtain ⟨t, ht, hk⟩ := iha _ _ _ hr
      exact ⟨t, Or.inl ht, hk.trans h⟩
    · obtain ⟨t, ht, hk⟩ := ihb _ _ _ h
      exact ⟨t, Or.inr ht, hk⟩
  | star a iha =>
    intro k s res h
    exact starRun_sound a.run a.den iha k _ s res h
  | group i a iha =>
    intro k s res h
    obtain ⟨m, hm, hk⟩ := iha _ _ _ h
    exact ⟨_, ⟨m, hm, rfl⟩, hk⟩
  | bol =>
    intro k s res h
    simp only [Re.run] at h
    split at h
    · rename_i hp
      exact ⟨s, ⟨hp, rfl⟩, h⟩
    · cases h
  | eol =>
    intro k s res h
    simp only [Re.run] at h
    split at h
    · rename_i hp
      exact ⟨s, ⟨List.isEmpty_iff.mp hp, rfl⟩, h⟩
    · cases h

theorem iter_word (R : MState → MState → Prop) (q : UInt8 → Prop)
    (hR : ∀ s t, R s t → ∃ w, s.rem = w ++ t.rem ∧ ∀ c ∈ w, q c) {s t : MState}
    (h : Iter R s t) : ∃ w, s.rem = w ++ t.rem ∧ ∀ c ∈ w, q c := by
  induction h with
  | done s => exact ⟨[], rfl, by simp⟩
  | more h1 _ ih =>
    obtain ⟨w1, e1, q1⟩ := hR _ _ h1
    obtain ⟨w2, e2, q2⟩ := ih
    refine ⟨w1 ++ w2, by rw [e1, e2, List.append_assoc], ?_⟩
    intro c hc
    rcases List.mem_append.mp hc with h | h
    · exact q1 c h
    · exact q2 c h

/-- The bytes a pattern consumes all have a property that each of its byte classes
enforces. -/
theorem den_word (q : UInt8 → Prop) (r : Re) :
    r.allCls q → ∀ s t, r.den s t → ∃ w, s.rem = w ++ t.rem ∧ ∀ c ∈ w, q c := by
  induction r with
  | eps =>
    intro _ s t h
    cases h
    exact ⟨[], rfl, by simp⟩
  | cls p =>
    intro hq s t h
    obtain ⟨c, cs, hrem, hp, rfl⟩ := h
    exact ⟨[c], by simp [hrem], by simpa using hq c hp⟩
  | seq a b iha ihb =>
    intro hq s t h
    obtain ⟨m, h1, h2⟩ := h
    obtain ⟨w1, e1, q1⟩ := iha hq.1 _ _ h1
    obtain ⟨w2, e2, q2⟩ := ihb hq.2 _ _ h2
    refine ⟨w1 ++ w2, by rw [e1, e2, List.append_assoc], ?_⟩
    intro c hc
    rcases List.mem_append.mp hc with h | h
    · exact q1 c h
    · exact q2 c h
  | alt a b iha ihb =>
    intro hq s t h
    rcases h with h | h
    · exact iha hq.1 _ _ h
    · exact ihb hq.2 _ _ h
  | star a iha =>
    intro hq s t h
    exact iter_word _ q (iha hq) h
  | group i a iha =>
    intro hq s t h
    obtain ⟨m, h1, rfl⟩ := h
    obtain ⟨w, hw, hqw⟩ := iha hq _ _ h1
    exact ⟨w, hw, hqw⟩
  | bol =>
    intro _ s t h
    obtain ⟨_, rfl⟩ := h
    exact ⟨[], rfl, by simp⟩
  | eol =>
    intro _ s t h
    obtain ⟨_, rfl⟩ := h
    exact ⟨[], rfl, by simp⟩

theorem allCls_true (r : Re) : r.allCls (fun _ => True) := by
  induction r with
  | eps => trivial
  | cls p => intro _ _; trivial
  | seq a b iha ihb => exact ⟨iha, ihb⟩
  | alt a b iha ihb => exact ⟨iha, ihb⟩
  | star a iha => exact iha
  | group i a iha => exact iha
  | bol => trivial
  | eol => trivial

/-- What a pattern leaves is a tail of what it started on. -/
theorem den_rem (r : Re) (s t : MState) (h : r.den s t) : ∃ w, s.rem = w ++ t.rem := by
  obtain ⟨w, hw, _⟩ := den_word (fun _ => True) r (allCls_true r) s t h
  exact ⟨w, hw⟩

theorem take_consumed (w r : Str) : (w ++ r).take ((w ++ r).length - r.length) = w := by
  simp

theorem iter_caps_eq (R : MState → MState → Prop)
    (hR : ∀ s t, R s t → t.caps = s.caps) {s t : MState} (h : Iter R s t) :
    t.caps = s.caps := by
  induction h with
  | done s => rfl
  | more h1 _ ih => rw [ih, hR _ _ h1]

/-- A pattern without groups leaves the captures alone. -/
theorem den_groupFree (r : Re) :
    r.groupFree = true → ∀ s t, r.den s t → t.caps = s.caps := by
  induction r with
  | eps =>
    intro _ s t h
    cases h
    rfl
  | cls p =>
    intro _ s t h
    obtain ⟨c, cs, _, _, rfl⟩ := h
    rfl
  | seq a b iha ihb =>
    intro hg s t h
    simp only [Re.groupFree, Bool.and_eq_true] at hg
    obtain ⟨m, h1, h2⟩ := h
    rw [ihb hg.2 _ _ h2, iha hg.1 _ _ h1]
  | alt a b iha ihb =>
    intro hg s t h
    simp only [Re.groupFree, Bool.and_eq_true] at hg
    rcases h with h | h
    · exact iha hg.1 _ _ h
    · exact ihb hg.2 _ _ h
  | star a iha =>
    intro hg s t h
    exact iter_caps_eq _ (iha hg) h
  | group i a _ =>
    intro hg
    cases hg
  | bol =>
    intro _ s t h
    obtain ⟨_, rfl⟩ := h
    rfl
  | eol =>
    intro _ s t h
    obtain ⟨_, rfl⟩ := h
    rfl

theorem iter_caps (R : MState → MState → Prop) (q : UInt8 → Prop)
    (hR : ∀ s t, R s t → ∀ i w, t.caps i = some w → s.caps i = some w ∨ ∀ c ∈ w, q c)
    {s t : MState} (h : Iter R s t) :
    ∀ i w, t.caps i = some w → s.caps i = some w ∨ ∀ c ∈ w, q c := by
  induction h with
  | done s => intro i w h; exact Or.inl h
  | more h1 _ ih =>
    intro i w h
    rcases ih i w h with h2 | h2
    · exact hR _ _ h1 i w h2
    · exact Or.inr h2

/-- A capture present after a pattern was there before, or consists of bytes with a
property that each byte class of the pattern enforces. -/
theorem den_caps (q : UInt8 → Prop) (r : Re) :
    r.allCls q → ∀ s t, r.den s t →
      ∀ i w, t.caps i = some w → s.caps i = some w ∨ ∀ c ∈ w, q c := by
  induction r with
  | eps =>
    intro _ s t h i w hw
    cases h
    exact Or.inl hw
  | cls p =>
    intro _ s t h i w hw
    obtain ⟨c, cs, _, _, rfl⟩ := h
    exact Or.inl hw
  | seq a b iha ihb =>
    intro hq s t h i w hw
    obtain ⟨m, h1, h2⟩ := h
    rcases ihb hq.2 _ _ h2 i w hw with h3 | h3
    · exact iha hq.1 _ _ h1 i w h3
    · exact Or.inr h3
  | alt a b iha ihb =>
    intro hq s t h i w hw
    rcases h with h | h
    · exact iha hq.1 _ _ h i w hw
    · exact ihb hq.2 _ _ h i w hw
  | star a iha =>
    intro hq s t h
    exact iter_caps _ q (iha hq) h
  | group j a iha =>
    intro hq s t h i w hw
    obtain ⟨m, h1, rfl⟩ := h
    simp only [MState.setCap] at hw
    split at hw
    · obtain ⟨w0, e0, q0⟩ := den_word q a hq _ _ h1
      right
      rw [e0, take_consumed] at hw
      cases hw
      exact q0
    · exact iha hq _ _ h1 i w hw
  | bol =>
    intro _ s t h i w hw
    obtain ⟨_, rfl⟩ := h
    exact Or.inl hw
  | eol =>
    intro _ s t h i w hw
    obtain ⟨_, rfl⟩ := h
    exact Or.inl hw

theorem allCls_cat (q : UInt8 → Prop) (rs : List Re) (h : ∀ r ∈ rs, r.allCls q) :
    (Re.cat rs).allCls q := by
  induction rs with
  | nil => trivial
  | cons r rs ih =>
    cases rs with
    | nil => exact h r (by simp)
    | cons r2 rs2 =>
      exact ⟨h r (by simp), ih (fun x hx => h x (by simp [hx]))⟩

theorem allCls_str (q : UInt8 → Prop) (s : String) (h : ∀ c ∈ lit s, q c) :
    (Re.str s).allCls q := by
  unfold Re.str
  apply allCls_cat
  intro r hr
  rw [List.mem_map] at hr
  obtain ⟨c, hc, rfl⟩ := hr
  intro x hx
  have : x = c := by simpa [Re.byte] using hx
  rw [this]
  exact h c hc

theorem allCls_plus (q : UInt8 → Prop) (r : Re) (h : r.allCls q) : (Re.plus r).allCls q :=
  ⟨h, h⟩

theorem space_plain : Re.space.allCls plainByte := by
  intro c hc
  refine ⟨?_, ?_, ?_⟩ <;> (rintro rfl; exact absurd hc (by decide))

theorem digit_plain : Re.digit.allCls plainByte := by
  intro c hc
  refine ⟨?_, ?_, ?_⟩ <;> (rintro rfl; exact absurd hc (by decide))

theorem alpha_plain : Re.alpha.allCls plainByte := by
  intro c hc
  refine ⟨?_, ?_, ?_⟩ <;> (rintro rfl; exact absurd hc (by decide))

theorem colon_plain : (Re.byte 58).allCls plainByte := by
  intro c hc
  refine ⟨?_, ?_, ?_⟩ <;> (rintro rfl; exact absurd hc (by decide))

theorem timestamp_re_plain : timestamp_re.allCls plainByte := by
  unfold timestamp_re
  apply allCls_cat
  intro r hr
  simp only [List.mem_cons, List.mem_singleton, List.not_mem_nil, or_false] at hr
  rcases hr with rfl | rfl | rfl | rfl | rfl | rfl | rfl | rfl | rfl | rfl | rfl | rfl | rfl |
    rfl | rfl
  all_goals first
    | exact alpha_plain
    | exact digit_plain
    | exact colon_plain
    | exact allCls_plus _ _ space_plain
    | exact ⟨digit_plain, trivial⟩

theorem history_head_plain : history_head.allCls plainByte := by
  unfold history_head
  apply allCls_cat
  intro r hr
  simp only [List.mem_cons, List.mem_singleton, List.not_mem_nil, or_false] at hr
  rcases hr with rfl | rfl | rfl | rfl | rfl | rfl | rfl | rfl
  all_goals first
    | exact allCls_str _ _ (by decide!)
    | exact space_plain
    | exact allCls_plus _ _ space_plain
    | exact allCls_plus _ _ digit_plain

theorem dropWhile_head (p : UInt8 → Bool) (l : Str) :
    l.dropWhile p = [] ∨ ∃ d ds, l.dropWhile p = d :: ds ∧ p d = false := by
  induction l with
  | nil => exact Or.inl rfl
  | cons x xs ih =>
    by_cases hx : p x = true
    · simpa [List.dropWhile, hx] using ih
    · right
      exact ⟨x, xs, by simp [List.dropWhile, hx], by simpa using hx⟩

/-- Greedy repetition of a byte class before a continuation that always succeeds takes
the longest run of bytes of the class. -/
theorem starRun_cls_greedy (p : UInt8 → Bool) (f : MState → MState) (fuel : Nat) :
    ∀ (s : MState), s.rem.length ≤ fuel →
      starRun (Re.cls p).run (fun x => some (f x)) fuel s =
        some (f { s with pos := s.pos + (s.rem.takeWhile p).length,
                         rem := s.rem.dropWhile p }) := by
  induction fuel with
  | zero =>
    intro s hs
    obtain ⟨pos, rem, caps⟩ := s
    have : rem = [] := List.length_eq_zero.mp (Nat.le_zero.mp hs)
    subst this
    simp [starRun]
  | succ n ih =>
    intro s hs
    obtain ⟨pos, rem, caps⟩ := s
    cases rem with
    | nil => simp [starRun, Re.run]
    | cons c cs =>
      by_cases hp : p c = true
      · have hlen : cs.length ≤ n := by simpa using hs
        have := ih { pos := pos + 1, rem := cs, caps := caps } hlen
        simp only [starRun, Re.run, hp, if_true, List.length_cons, Nat.lt_succ_self] at this ⊢
        rw [this]
        have e : pos + 1 + (cs.takeWhile p).length = pos + ((cs.takeWhile p).length + 1) := by
          omega
        simp [List.takeWhile, List.dropWhile, hp, e]
      · simp [starRun, Re.run, hp, List.takeWhile, List.dropWhile]

theorem take_takeWhile_length (p : UInt8 → Bool) (l : Str) :
    l.take (l.takeWhile p).length = l.takeWhile p := by
  have h : (l.takeWhile p ++ l.dropWhile p).take (l.takeWhile p).length = l.takeWhile p :=
    List.take_left' rfl
  rwa [List.takeWhile_append_dropWhile] at h

theorem run_last_group (i : Nat) (p : UInt8 → Bool) (t res : MState)
    (h : (Re.group i (Re.plus (.cls p))).run some t = some res) :
    ∃ c cs, t.rem = c :: cs ∧ p c = true ∧
      res.caps = (fun j => if j = i then some (c :: cs.takeWhile p) else t.caps j) ∧
      (cs.dropWhile p = [] ∨ ∃ d ds, cs.dropWhile p = d :: ds ∧ p d = false) := by
  obtain ⟨pos, rem, caps⟩ := t
  cases rem with
  | nil => simp [Re.run, Re.plus] at h
  | cons c cs =>
    by_cases hp : p c = true
    · refine ⟨c, cs, rfl, hp, ?_, dropWhile_head p cs⟩
      have h2 : (if p c = true then
          starRun (Re.cls p).run
            (fun st' => some (st'.setCap i
              ((c :: cs).take ((c :: cs).length - st'.rem.length))))
            cs.length { pos := pos + 1, rem := cs, caps := caps }
        else none) = some res := h
      rw [if_pos hp, starRun_cls_greedy p
        (fun st' => st'.setCap i ((c :: cs).take ((c :: cs).length - st'.rem.length)))
        cs.length { pos := pos + 1, rem := cs, caps := caps } (Nat.le_refl _)] at h2
      cases h2
      funext j
      simp only [MState.setCap]
      split
      · congr 1
        have hlen : cs.length = (cs.takeWhile p).length + (cs.dropWhile p).length := by
          have := congrArg List.length (List.takeWhile_append_dropWhile p cs)
          rw [List.length_append] at this
          exact this.symm
        rw [List.length_cons, hlen]
        have : (cs.takeWhile p).length + (cs.dropWhile p).length + 1 - (cs.dropWhile p).length
            = (cs.takeWhile p).length + 1 := by omega
        rw [this, List.take_succ_cons]
        congr 1
        exact take_takeWhile_length p cs
      · rfl
    · simp [Re.run, Re.plus, hp] at h

theorem searchFrom_sound (re : Re) (s : Str) :
    ∀ pos res, searchFrom re pos s = some res →
      ∃ pre suf p, s = pre ++ suf ∧
        re.run some { pos := p, rem := suf, caps := fun _ => none } = some res := by
  induction s with
  | nil =>
    intro pos res h
    exact ⟨[], [], pos, rfl, h⟩
  | cons c cs ih =>
    intro pos res h
    simp only [searchFrom] at h
    split at h
    · rename_i r hr
      exact ⟨[], c :: cs, pos, rfl, hr.trans h⟩
    · obtain ⟨pre, suf, p, hs, hrun⟩ := ih _ _ h
      exact ⟨c :: pre, suf, p, by rw [hs]; rfl, hrun⟩

/-! ### The components of a line and the captures of the HISTORY pattern are escaped text -/

theorem plus_space_head {s t : MState} (h : (Re.plus Re.space).den s t) :
    ∃ c cs, s.rem = c :: cs ∧ isSpace c = true := by
  obtain ⟨m, ⟨c, cs, hrem, hp, _⟩, _⟩ := h
  exact ⟨c, cs, hrem, hp⟩

theorem parse_log_line_esc (e : Str) (he : Esc e) :
    Esc (parse_log_line e).timestamp ∧ Esc (parse_log_line e).hostname ∧
      Esc (parse_log_line e).rest := by
  unfold parse_log_line
  cases hm : regex_match log_regex e with
  | none => exact ⟨esc_nil, esc_nil, he⟩
  | some m =>
    simp only
    unfold regex_match at hm
    rw [Option.map_eq_some'] at hm
    obtain ⟨st, hrun, rfl⟩ := hm
    obtain ⟨t, hden, hk⟩ := run_sound log_regex _ _ _ hrun
    split at hk
    · cases hk
      obtain ⟨m0, ⟨hpos, rfl⟩, m1', ⟨m1, hTS, rfl⟩, m2, hws1, m3', ⟨m3, hhost, rfl⟩, m4, hws2,
        m5', ⟨m5, hrest, rfl⟩, hend, rfl⟩ := hden
      have c5 : m5.caps = m4.caps := den_groupFree (Re.star Re.dot) rfl _ _ hrest
      have c4 := den_groupFree (Re.plus Re.space) rfl _ _ hws2
      have c3 : m3.caps = m2.caps := den_groupFree (Re.plus Re.nonspace) rfl _ _ hhost
      have c2 := den_groupFree (Re.plus Re.space) rfl _ _ hws1
      obtain ⟨w1, e1, q1⟩ := den_word plainByte timestamp_re timestamp_re_plain _ _ hTS
      obtain ⟨ws1, e2⟩ := den_rem _ _ _ hws1
      obtain ⟨host, e3⟩ := den_rem _ _ _ hhost
      obtain ⟨c, cs, e4, hsp⟩ := plus_space_head hws2
      obtain ⟨ws2, e6⟩ := den_rem _ _ _ hws2
      obtain ⟨r, e5⟩ := den_rem _ _ _ hrest
      have hend' : m5.rem = [] := hend
      have e1' : e = w1 ++ m1.rem := e1
      have e2' : m1.rem = ws1 ++ m2.rem := e2
      have e4' : m3.rem = c :: cs := e4
      have e6' : m3.rem = ws2 ++ m4.rem := e6
      rw [hend', List.append_nil] at e5
      have hsub1 : Smatch.sub { caps := (m5.setCap 3
          (m4.rem.take (m4.rem.length - m5.rem.length))).caps } 1 = w1 := by
        have : (m5.setCap 3 (m4.rem.take (m4.rem.length - m5.rem.length))).caps 1
            = some (e.take (e.length - m1.rem.length)) := by
          show m5.caps 1 = _
          rw [c5, c4]
          show m3.caps 1 = _
          rw [c3, c2]
          rfl
        simp only [Smatch.sub]
        rw [this, e1', take_consumed]
        rfl
      have hsub2 : Smatch.sub { caps := (m5.setCap 3
          (m4.rem.take (m4.rem.length - m5.rem.length))).caps } 2 = host := by
        have : (m5.setCap 3 (m4.rem.take (m4.rem.length - m5.rem.length))).caps 2
            = some (m2.rem.take (m2.rem.length - m3.rem.length)) := by
          show m5.caps 2 = _
          rw [c5, c4]
          rfl
        simp only [Smatch.sub]
        rw [this, e3, take_consumed]
        rfl
      have hsub3 : Smatch.sub { caps := (m5.setCap 3
          (m4.rem.take (m4.rem.length - m5.rem.length))).caps } 3 = r := by
        have : (m5.setCap 3 (m4.rem.take (m4.rem.length - m5.rem.length))).caps 3
            = some (m4.rem.take (m4.rem.length - m5.rem.length)) := rfl
        simp only [Smatch.sub]
        rw [this, hend', e5]
        simp
      rw [hsub1, hsub2, hsub3]
      have hall : e = (w1 ++ ws1) ++ (host ++ (c :: cs)) := by
        rw [e1', e2', e3, e4', List.append_assoc]
      refine ⟨esc_of_plain q1, ?_, ?_⟩
      · rw [hall] at he
        exact esc_cut he (Or.inr ⟨c, cs, rfl, hsp⟩)
      · have hall2 : e = (w1 ++ ws1 ++ host ++ ws2) ++ r := by
          rw [e1', e2', e3, e6', e5]
          simp [List.append_assoc]
        rw [hall2] at he
        exact esc_suffix he
    · cases hk

theorem dot_false_space (d : UInt8) (h : isDot d = false) : isSpace d = true := by
  unfold isDot at h
  simp only [Bool.and_eq_false_iff, bne_eq_false_iff_eq] at h
  rcases h with rfl | rfl <;> decide

theorem history_match_esc (rest : Str) (m : Smatch) (he : Esc rest)
    (hm : regex_search_m history_regex rest = some m) :
    Esc (m.sub 1) ∧ Esc (m.sub 2) ∧ Esc (m.sub 3) := by
  unfold regex_search_m at hm
  rw [Option.map_eq_some'] at hm
  obtain ⟨st, hs, rfl⟩ := hm
  obtain ⟨pre, suf, p, hsplit, hrun⟩ := searchFrom_sound _ _ _ _ hs
  have hrun2 : history_head.run ((Re.group 3 (Re.plus Re.dot)).run some)
      { pos := p, rem := suf, caps := fun _ => none } = some st := hrun
  obtain ⟨t, hden, hlast⟩ := run_sound history_head _ _ _ hrun2
  obtain ⟨c, cs, hrem, _, hcaps, hdrop⟩ := run_last_group 3 isDot t st hlast
  obtain ⟨w, hw⟩ := den_rem _ _ _ hden
  have hw' : suf = w ++ t.rem := hw
  have hplain := den_caps plainByte history_head history_head_plain _ _ hden
  have hcap : ∀ i, i ≠ 3 → Esc (Smatch.sub { caps := st.caps } i) := by
    intro i hi
    unfold Smatch.sub
    simp only [hcaps, if_neg hi]
    cases hti : t.caps i with
    | none => exact esc_nil
    | some x =>
      rcases hplain i x hti with h | h
      · cases h
      · exact esc_of_plain h
  refine ⟨hcap 1 (by decide), hcap 2 (by decide), ?_⟩
  have hsub : Smatch.sub { caps := st.caps } 3 = c :: cs.takeWhile isDot := by
    unfold Smatch.sub
    simp only [hcaps, if_true]
    rfl
  rw [hsub]
  have hall : rest = (pre ++ w) ++ ((c :: cs.takeWhile isDot) ++ cs.dropWhile isDot) := by
    rw [hsplit, hw', hrem, List.cons_append, List.takeWhile_append_dropWhile,
      List.append_assoc]
  rw [hall] at he
  refine esc_cut he ?_
  rcases hdrop with h | ⟨d, ds, h, hd⟩
  · exact Or.inl h
  · exact Or.inr ⟨d, ds, h, dot_false_space d hd⟩

/-! ### Every rendering is safe -/

theorem header_safe (emoji : Str) (comp : LogComponents) (h1 : Safe emoji)
    (h2 : Esc comp.timestamp) (h3 : Esc comp.hostname) : Safe (header emoji comp) := by
  unfold header
  exact safe_append (safe_append (safe_append (safe_append (safe_append h1 (by decide!))
    (esc_safe h2)) (by decide!)) (esc_safe h3)) (by decide!)

theorem history_emoji_safe (cmd : Str) : Safe (history_emoji (lit "🧠") cmd) := by
  unfold history_emoji
  split_ifs <;> decide!

theorem render_safe {hd l1 x l2 : Str} (hh : Safe hd) (h1 : Safe l1) (hx : Safe x)
    (h2 : Safe l2) : Safe (hd ++ l1 ++ x ++ l2) :=
  safe_append (safe_append (safe_append hh h1) hx) h2

theorem render_safe_open {hd l1 x : Str} (hh : Safe hd) (h1 : Safe l1) (hx : Safe x) :
    Safe (hd ++ l1 ++ x) :=
  safe_append (safe_append hh h1) hx

theorem format_kernel_safe (comp : LogComponents) (kernel_msg : Str)
    (h2 : Esc comp.timestamp) (h3 : Esc comp.hostname) (hk : Esc kernel_msg) :
    Safe (format_kernel comp kernel_msg) := by
  unfold format_kernel
  split
  · exact render_safe (header_safe _ _ (by decide!) h2 h3) (by decide!)
      (safe_append (safe_append (by decide!) (esc_safe hk)) (by decide!)) (by decide!)
  · split
    · exact render_safe (header_safe _ _ (by decide!) h2 h3) (by decide!) (esc_safe hk)
        (by decide!)
    · split
      · exact render_safe (header_safe _ _ (by decide!) h2 h3) (by decide!) (esc_safe hk)
          (by decide!)
      · split
        · exact render_safe (header_safe _ _ (by decide!) h2 h3) (by decide!) (esc_safe hk)
            (by decide!)
        · exact render_safe (header_safe _ _ (by decide!) h2 h3) (by decide!) (esc_safe hk)
            (by decide!)

theorem history_render_safe {hd l1 pid l2 uid l3 l4 cmd l5 : Str} (hh : Safe hd)
    (h1 : Safe l1) (hp : Safe pid) (h2 : Safe l2) (hu : Safe uid) (h3 : Safe l3)
    (h4 : Safe l4) (hc : Safe cmd) (h5 : Safe l5) :
    Safe (hd ++ l1 ++ pid ++ l2 ++ uid ++ l3 ++ l4 ++ cmd ++ l5) :=
  safe_append (safe_append (safe_append (safe_append (safe_append (safe_append (safe_append
    (safe_append hh h1) hp) h2) hu) h3) h4) hc) h5

/-- C8: whatever message `format_log_line` returns, in every classification branch, is
safe: each `<` begins and each `>` ends one of the classifier's tags, and each `&` is the
first byte of `&amp;`, `&lt;` or `&gt;`. -/
theorem format_log_line_escapes (line msg : Str) (h : format_log_line line = some msg) :
    Safe msg := by
  have hE := esc_html_escape line
  obtain ⟨h1, h2, h3⟩ := parse_log_line_esc _ hE
  unfold format_log_line at h
  simp only at h
  generalize parse_log_line (html_escape line) = comp at h h1 h2 h3
  split at h
  · split at h
    · rename_i m hm
      obtain ⟨e1, e2, e3⟩ := history_match_esc _ _ h3 hm
      split at h
      · cases h
        exact history_render_safe (header_safe _ _ (history_emoji_safe _) h1 h2) (by decide!)
          (esc_safe e1) (by decide!) (esc_safe e2) (by decide!) (by decide!) (esc_safe e3)
          (by decide!)
      · cases h
        exact history_render_safe (header_safe _ _ (history_emoji_safe _) h1 h2) (by decide!)
          (esc_safe e1) (by decide!) (esc_safe e2) (by decide!) (by decide!) (esc_safe e3)
          (by decide!)
    · cases h
      decide
  · split at h
    · rename_i p hp
      split at h
      · rename_i km hkm
        cases h
        unfold substr at hkm
        split at hkm
        · cases hkm
        · cases hkm
          apply format_kernel_safe _ _ h1 h2
          have hr : comp.rest = comp.rest.take (p + 8) ++ comp.rest.drop (p + 8) :=
            (List.take_append_drop _ _).symm
          rw [hr] at h3
          exact esc_suffix h3
      · cases h
    · split at h
      · cases h
        refine render_safe (header_safe _ _ ?_ h1 h2) (by decide!) (esc_safe h3) (by decide!)
        split <;> decide!
      · split at h
        · cases h
          exact render_safe (header_safe _ _ (by decide!) h1 h2) (by decide!) (esc_safe h3)
            (by decide!)
        · split at h
          · cases h
            exact render_safe (header_safe _ _ (by decide!) h1 h2) (by decide!) (esc_safe h3)
              (by decide!)
          · split at h
            · cases h
              exact render_safe (header_safe _ _ (by decide!) h1 h2) (by decide!)
                (esc_safe h3) (by decide!)
            · split at h
              · cases h
                exact render_safe_open (header_safe _ _ (by decide!) h1 h2) (by decide!)
                  (esc_safe h3)
              · cases h
                exact render_safe_open (header_safe _ _ (by decide!) h1 h2) (by decide!)
                  (esc_safe h3)

/-- C8 on a kernel line whose text contains `<`, `>` and `&`. -/
theorem format_log_line_escapes_witness :
    format_log_line (lit "Oct 29 01:09:44 host1 kernel: eth0 <up> & Error")
      = some (lit "🚨⚙️ <b>Oct 29 01:09:44</b> <code>host1</code>\n└ <i><b>eth0 &lt;up&gt; &amp; Error</b></i>") ∧
    Safe (lit "🚨⚙️ <b>Oct 29 01:09:44</b> <code>host1</code>\n└ <i><b>eth0 &lt;up&gt; &amp; Error</b></i>") :=
  ⟨by decide!,
   format_log_line_escapes (lit "Oct 29 01:09:44 host1 kernel: eth0 <up> & Error") _
     (by decide!)⟩

/-! ### The shape of the two defects of the classifier, and the counter invariant -/

theorem format_log_line_history_unmatched (line : Str)
    (h1 : (find (lit "HISTORY:") (parse_log_line (html_escape line)).rest).isSome = true)
    (h2 : regex_search_m history_regex (parse_log_line (html_escape line)).rest = none) :
    format_log_line line = some [] := by
  unfold format_log_line
  simp only [h1, h2, if_true]

theorem format_log_line_kernel_throws (line : Str) (p : Nat)
    (h1 : find (lit "HISTORY:") (parse_log_line (html_escape line)).rest = none)
    (h2 : find (lit "kernel:") (parse_log_line (html_escape line)).rest = some p)
    (h3 : (parse_log_line (html_escape line)).rest.length < p + 8) :
    format_log_line line = none := by
  unfold format_log_line
  have h4 : substr (parse_log_line (html_escape line)).rest (p + 8) = none := by
    unfold substr
    rw [if_pos h3]
  simp [h1, h2, h4]

theorem process_buffer_count (send : Str → Bool) (now : Int) (buffer : EventBuffer)
    (hinv : buffer.event_count = buffer.events.length) :
    (process_buffer send now buffer).1.event_count
      = (process_buffer send now buffer).1.events.length := by
  by_cases hg : now - buffer.last_send_time < 10
  · rw [process_buffer_gate_closed send now buffer hg]
    exact hinv
  · have h := window_reset send now buffer (by omega)
    rw [h.1, h.2.1]
    rfl

theorem monitor_line_count (compile : Str → Re) (config : Config) (buffer b : EventBuffer)
    (line : Str) (hinv : buffer.event_count = buffer.events.length)
    (h : monitor_line compile config buffer line = some b) :
    b.event_count = b.events.length := by
  cases hf : format_log_line line with
  | none =>
    unfold monitor_line at h
    simp only [hf] at h
    split_ifs at h <;> cases h <;> exact hinv
  | some formatted =>
    rw [monitor_line_of_formatted compile config buffer line formatted hf] at h
    cases h
    split
    · simp [hinv]
    · exact hinv

theorem run_loop_count (compile : Str → Re) (config : Config) (ticks : List Tick) :
    ∀ (buffer b : EventBuffer) (sent : List Str),
      buffer.event_count = buffer.events.length →
      run_loop compile config ticks buffer = some (b, sent) →
      b.event_count = b.events.length := by
  induction ticks with
  | nil =>
    intro buffer b sent hinv h
    simp only [run_loop] at h
    cases h
    exact hinv
  | cons tick ticks ih =>
    intro buffer b sent hinv h
    cases tick with
    | line l =>
      simp only [run_loop] at h
      split at h
      · rename_i b1 hb1
        exact ih b1 b sent (monitor_line_count compile config buffer b1 l hinv hb1) h
      · cases h
    | idle now send =>
      simp only [run_loop] at h
      split at h
      · rename_i b2 sent2 hb2
        cases h
        exact ih _ b sent2 (process_buffer_count send now buffer hinv) hb2
      · cases h

/-! ### The matcher on input of a known shape -/

theorem fwd_cls (p : UInt8 → Bool) (k : MState → Option MState) (pos : Nat) (c : UInt8)
    (rest : Str) (caps : Nat → Option Str) (r : MState) (hp : p c = true)
    (hk : k { pos := pos + 1, rem := rest, caps := caps } = some r) :
    (Re.cls p).run k { pos := pos, rem := c :: rest, caps := caps } = some r := by
  simp only [Re.run, hp, if_true]
  exact hk

theorem fail_cls (p : UInt8 → Bool) (k : MState → Option MState) (pos : Nat) (c : UInt8)
    (rest : Str) (caps : Nat → Option Str) (hp : p c = false) :
    (Re.cls p).run k { pos := pos, rem := c :: rest, caps := caps } = none := by
  simp [Re.run, hp]

theorem fwd_bytes (l : Str) :
    ∀ (k : MState → Option MState) (pos : Nat) (rest : Str) (caps : Nat → Option Str)
      (r : MState),
      k { pos := pos + l.length, rem := rest, caps := caps } = some r →
      (Re.cat (l.map Re.byte)).run k { pos := pos, rem := l ++ rest, caps := caps }
        = some r := by
  induction l with
  | nil =>
    intro k pos rest caps r hk
    exact hk
  | cons c cs ih =>
    intro k pos rest caps r hk
    have hk2 : k { pos := pos + 1 + cs.length, rem := rest, caps := caps } = some r := by
      have e : pos + (c :: cs).length = pos + 1 + cs.length := by
        simp only [List.length_cons]
        omega
      rw [← e]
      exact hk
    cases cs with
    | nil =>
      exact fwd_cls _ k pos c rest caps r (by simp) hk2
    | cons c2 cs2 =>
      show (Re.byte c).run ((Re.cat ((c2 :: cs2).map Re.byte)).run k)
        { pos := pos, rem := c :: ((c2 :: cs2) ++ rest), caps := caps } = some r
      exact fwd_cls _ _ pos c _ caps r (by simp) (ih k (pos + 1) rest caps r hk2)

theorem fwd_str (s : String) (k : MState → Option MState) (pos : Nat) (rest : Str)
    (caps : Nat → Option Str) (r : MState)
    (hk : k { pos := pos + (lit s).length, rem := rest, caps := caps } = some r) :
    (Re.str s).run k { pos := pos, rem := lit s ++ rest, caps := caps } = some r :=
  fwd_bytes (lit s) k pos rest caps r hk

theorem starRun_fwd (p : UInt8 → Bool) (k : MState → Option MState) (rest : Str)
    (caps : Nat → Option Str) (r : MState) (hrest : ∀ c ∈ rest.head?, p c = false)
    (w : Str) :
    ∀ (fuel pos : Nat), (w ++ rest).length ≤ fuel → (∀ c ∈ w, p c = true) →
      k { pos := pos + w.length, rem := rest, caps := caps } = some r →
      starRun (Re.cls p).run k fuel { pos := pos, rem := w ++ rest, caps := caps }
        = some r := by
  induction w with
  | nil =>
    intro fuel pos _ _ hk
    have hk0 : k { pos := pos, rem := rest, caps := caps } = some r := hk
    cases fuel with
    | zero => exact hk0
    | succ n =>
      have hnone : ∀ k2, (Re.cls p).run k2 { pos := pos, rem := rest, caps := caps } = none := by
        intro k2
        cases rest with
        | nil => rfl
        | cons c cs => exact fail_cls p k2 pos c cs caps (hrest c (by simp))
      simp only [starRun, List.nil_append, hnone]
      exact hk0
  | cons c cs ih =>
    intro fuel pos hfuel hw hk
    cases fuel with
    | zero => simp at hfuel
    | succ n =>
      have hlen : (cs ++ rest).length ≤ n := by
        simp only [List.cons_append, List.length_cons] at hfuel
        omega
      have hk2 : k { pos := pos + 1 + cs.length, rem := rest, caps := caps } = some r := by
        have e : pos + (c :: cs).length = pos + 1 + cs.length := by
          simp only [List.length_cons]
          omega
        rw [← e]
        exact hk
      have hrec := ih n (pos + 1) hlen (fun x hx => hw x (by simp [hx])) hk2
      have hstep : (Re.cls p).run
          (fun st' => if st'.rem.length < (c :: (cs ++ rest)).length
            then starRun (Re.cls p).run k n st' else none)
          { pos := pos, rem := c :: (cs ++ rest), caps := caps } = some r := by
        apply fwd_cls p _ pos c (cs ++ rest) caps r (hw c (by simp))
        simp only [List.length_cons, Nat.lt_succ_self, if_true]
        exact hrec
      simp only [starRun, List.cons_append]
      rw [hstep]

/-- Greedy repetition of a byte class over a run `w` that cannot be extended, when the
continuation succeeds after the whole run. -/
theorem fwd_star (p : UInt8 → Bool) (k : MState → Option MState) (pos : Nat) (w rest : Str)
    (caps : Nat → Option Str) (r : MState) (hw : ∀ c ∈ w, p c = true)
    (hrest : ∀ c ∈ rest.head?, p c = false)
    (hk : k { pos := pos + w.length, rem := rest, caps := caps } = some r) :
    (Re.star (.cls p)).run k { pos := pos, rem := w ++ rest, caps := caps } = some r :=
  starRun_fwd p k rest caps r hrest w _ pos (Nat.le_refl _) hw hk

theorem fwd_plus (p : UInt8 → Bool) (k : MState → Option MState) (pos : Nat) (w rest : Str)
    (caps : Nat → Option Str) (r : MState) (hne : w ≠ []) (hw : ∀ c ∈ w, p c = true)
    (hrest : ∀ c ∈ rest.head?, p c = false)
    (hk : k { pos := pos + w.length, rem := rest, caps := caps } = some r) :
    (Re.plus (.cls p)).run k { pos := pos, rem := w ++ rest, caps := caps } = some r := by
  cases w with
  | nil => exact absurd rfl hne
  | cons c cs =>
    have hk2 : k { pos := pos + 1 + cs.length, rem := rest, caps := caps } = some r := by
      have e : pos + (c :: cs).length = pos + 1 + cs.length := by
        simp only [List.length_cons]
        omega
      rw [← e]
      exact hk
    show (Re.cls p).run ((Re.star (.cls p)).run k)
      { pos := pos, rem := c :: (cs ++ rest), caps := caps } = some r
    exact fwd_cls p _ pos c _ caps r (hw c (by simp))
      (fwd_star p k (pos + 1) cs rest caps r (fun x hx => hw x (by simp [hx])) hrest hk2)

theorem fwd_alt_left (a b : Re) (k : MState → Option MState) (s r : MState)
    (h : a.run k s = some r) : (Re.alt a b).run k s = some r := by
  simp only [Re.run, h]

theorem fwd_alt_right (a b : Re) (k : MState → Option MState) (s r : MState)
    (ha : a.run k s = none) (h : b.run k s = some r) : (Re.alt a b).run k s = some r := by
  simp only [Re.run, ha, h]

theorem fwd_group (i : Nat) (a : Re) (k : MState → Option MState) (s r : MState)
    (h : a.run (fun st' => k (st'.setCap i (s.rem.take (s.rem.length - st'.rem.length)))) s
      = some r) :
    (Re.group i a).run k s = some r := h

theorem fwd_seq (a b : Re) (k : MState → Option MState) (s r : MState)
    (h : a.run (b.run k) s = some r) : (Re.seq a b).run k s = some r := h

/-- Greedy repetition of a byte class succeeds as soon as the continuation succeeds after
some run of bytes of the class, whatever it then returns. -/
theorem starRun_some (p : UInt8 → Bool) (k : MState → Option MState) (rest : Str)
    (caps : Nat → Option Str) (w : Str) :
    ∀ (fuel pos : Nat), (w ++ rest).length ≤ fuel → (∀ c ∈ w, p c = true) →
      (k { pos := pos + w.length, rem := rest, caps := caps }).isSome = true →
      (starRun (Re.cls p).run k fuel { pos := pos, rem := w ++ rest, caps := caps }).isSome
        = true := by
  induction w with
  | nil =>
    intro fuel pos _ _ hk
    have hk0 : (k { pos := pos, rem := rest, caps := caps }).isSome = true := hk
    cases fuel with
    | zero => exact hk0
    | succ n =>
      simp only [starRun, List.nil_append]
      split
      · rfl
      · exact hk0
  | cons c cs ih =>
    intro fuel pos hfuel hw hk
    cases fuel with
    | zero => simp at hfuel
    | succ n =>
      have hlen : (cs ++ rest).length ≤ n := by
        simp only [List.cons_append, List.length_cons] at hfuel
        omega
      have hk2 : (k { pos := pos + 1 + cs.length, rem := rest, caps := caps }).isSome
          = true := by
        have e : pos + (c :: cs).length = pos + 1 + cs.length := by
          simp only [List.length_cons]
          omega
        rw [← e]
        exact hk
      have hrec := ih n (pos + 1) hlen (fun x hx => hw x (by simp [hx])) hk2
      obtain ⟨r, hr⟩ := Option.isSome_iff_exists.mp hrec
      have hstep : (Re.cls p).run
          (fun st' => if st'.rem.length < (c :: (cs ++ rest)).length
            then starRun (Re.cls p).run k n st' else none)
          { pos := pos, rem := c :: (cs ++ rest), caps := caps } = some r := by
        apply fwd_cls p _ pos c (cs ++ rest) caps r (hw c (by simp))
        simp only [List.length_cons, Nat.lt_succ_self, if_true]
        exact hr
      simp only [starRun, List.cons_append]
      rw [hstep]
      rfl

theorem star_some (p : UInt8 → Bool) (k : MState → Option MState) (pos : Nat) (w rest : Str)
    (caps : Nat → Option Str) (hw : ∀ c ∈ w, p c = true)
    (hk : (k { pos := pos + w.length, rem := rest, caps := caps }).isSome = true) :
    ((Re.star (.cls p)).run k { pos := pos, rem := w ++ rest, caps := caps }).isSome
      = true :=
  starRun_some p k rest caps w _ pos (Nat.le_refl _) hw hk

theorem isSome_lift {o o2 : Option MState} (h : ∀ r, o2 = some r → o = some r)
    (h2 : o2.isSome = true) : o.isSome = true := by
  obtain ⟨r, hr⟩ := Option.isSome_iff_exists.mp h2
  rw [h r hr]
  rfl

/-! ### Searching -/

theorem searchFrom_hit (re : Re) (pos : Nat) (s : Str) (r : MState)
    (h : re.run some { pos := pos, rem := s, caps := fun _ => none } = some r) :
    searchFrom re pos s = some r := by
  cases s with
  | nil => exact h
  | cons c cs => simp only [searchFrom, h]

theorem searchFrom_skip (re : Re) (n : Nat) :
    ∀ (pos : Nat) (s : Str), n ≤ s.length →
      (∀ i, i < n →
        re.run some { pos := pos + i, rem := s.drop i, caps := fun _ => none } = none) →
      searchFrom re pos s = searchFrom re (pos + n) (s.drop n) := by
  induction n with
  | zero =>
    intro pos s _ _
    rfl
  | succ n ih =>
    intro pos s hlen hnone
    cases s with
    | nil => simp at hlen
    | cons c cs =>
      have h0 := hnone 0 (Nat.succ_pos n)
      have h0' : re.run some { pos := pos, rem := c :: cs, caps := fun _ => none } = none := h0
      simp only [searchFrom, h0']
      have hrec := ih (pos + 1) cs (by simpa using hlen) (fun i hi => by
        have := hnone (i + 1) (Nat.succ_lt_succ hi)
        have e : pos + (i + 1) = pos + 1 + i := by omega
        rw [e] at this
        exact this)
      rw [hrec]
      have e : pos + 1 + n = pos + (n + 1) := by omega
      rw [e]
      rfl

theorem searchFrom_bol_succ (x : Re) (s : Str) :
    ∀ pos, searchFrom (.seq .bol x) (pos + 1) s = none := by
  induction s with
  | nil =>
    intro pos
    rfl
  | cons c cs ih =>
    intro pos
    have h : (Re.seq .bol x).run some
        { pos := pos + 1, rem := c :: cs, caps := fun _ => none } = none := rfl
    simp only [searchFrom, h]
    exact ih (pos + 1)

/-- A pattern that begins with `^` can only match at the start of the subject. -/
theorem regex_search_bol (x : Re) (s : Str) :
    regex_search (.seq .bol x) s
      = (x.run some { pos := 0, rem := s, caps := fun _ => none }).isSome := by
  unfold regex_search
  cases s with
  | nil => rfl
  | cons c cs =>
    have h : (Re.seq .bol x).run some { pos := 0, rem := c :: cs, caps := fun _ => none }
        = x.run some { pos := 0, rem := c :: cs, caps := fun _ => none } := rfl
    simp only [searchFrom, h]
    cases hx : x.run some { pos := 0, rem := c :: cs, caps := fun _ => none } with
    | none =>
      simp only
      rw [searchFrom_bol_succ x cs 0]
    | some r => rfl

/-! ### Byte classes -/

theorem byte_forall (P : UInt8 → Prop) (h : ∀ n : Fin 256, P ⟨⟨n⟩⟩) : ∀ c, P c :=
  fun ⟨⟨n⟩⟩ => h n

theorem space_not_digit : ∀ c : UInt8, isSpace c = true → isDigit c = false :=
  byte_forall _ (by decide!)

theorem digit_not_space : ∀ c : UInt8, isDigit c = true → isSpace c = false :=
  byte_forall _ (by decide!)

theorem digit_plain_byte : ∀ c : UInt8, isDigit c = true → plainByte c :=
  byte_forall _ (by decide!)

theorem alpha_plain_byte : ∀ c : UInt8, isAlpha c = true → plainByte c :=
  byte_forall _ (by decide!)

theorem space_plain_byte : ∀ c : UInt8, isSpace c = true → plainByte c :=
  byte_forall _ (by decide!)

theorem escapeByte_classes : ∀ c : UInt8, ∀ x ∈ escapeByte c,
    (isSpace c = false → isSpace x = false) ∧ (isDot c = true → isDot x = true) :=
  byte_forall _ (by decide!)

theorem escapeByte_ne_nil : ∀ c : UInt8, escapeByte c ≠ [] :=
  byte_forall _ (by decide!)

/-! ### The syslog pattern on a line of the syslog shape -/

theorem fwd_eps (k : MState → Option MState) (s r : MState) (h : k s = some r) :
    Re.eps.run k s = some r := h

theorem head_cons (q : UInt8 → Bool) (x : UInt8) (xs : Str) (hx : q x = false) :
    ∀ c ∈ (x :: xs).head?, q c = false := by
  intro c hc
  simp only [List.head?_cons, Option.mem_def, Option.some.injEq] at hc
  subst hc
  exact hx

theorem fwd_clock_tail (k : MState → Option MState) (pos : Nat) (w2 : Str)
    (h1 h2 m1 m2 s1 s2 : UInt8) (tl : Str) (caps : Nat → Option Str) (r : MState)
    (hw2 : IsBlank w2) (hh1 : isDigit h1 = true) (hh2 : isDigit h2 = true)
    (hm1 : isDigit m1 = true) (hm2 : isDigit m2 = true) (hs1 : isDigit s1 = true)
    (hs2 : isDigit s2 = true)
    (hk : k { pos := pos + w2.length + 1 + 1 + 1 + 1 + 1 + 1 + 1 + 1, rem := tl,
              caps := caps } = some r) :
    (Re.cat [.plus .space, .digit, .digit, .byte 58, .digit, .digit, .byte 58, .digit,
        .digit]).run k
      { pos := pos, rem := w2 ++ (h1 :: h2 :: 58 :: m1 :: m2 :: 58 :: s1 :: s2 :: tl),
        caps := caps } = some r := by
  apply fwd_seq
  apply fwd_plus isSpace _ _ w2 _ _ _ hw2.1 hw2.2 (head_cons _ _ _ (digit_not_space h1 hh1))
  apply fwd_seq
  apply fwd_cls isDigit _ _ h1 _ _ _ hh1
  apply fwd_seq
  apply fwd_cls isDigit _ _ h2 _ _ _ hh2
  apply fwd_seq
  apply fwd_cls _ _ _ 58 _ _ _ (by decide)
  apply fwd_seq
  apply fwd_cls isDigit _ _ m1 _ _ _ hm1
  apply fwd_seq
  apply fwd_cls isDigit _ _ m2 _ _ _ hm2
  apply fwd_seq
  apply fwd_cls _ _ _ 58 _ _ _ (by decide)
  apply fwd_seq
  apply fwd_cls isDigit _ _ s1 _ _ _ hs1
  apply fwd_cls isDigit _ _ s2 _ _ _ hs2
  exact hk

theorem fwd_timestamp (pos : Nat) (ts tl : Str) (caps : Nat → Option Str)
    (hts : IsTimestamp ts) :
    ∃ pos2, ∀ (k : MState → Option MState) (r : MState),
      k { pos := pos2, rem := tl, caps := caps } = some r →
      timestamp_re.run k { pos := pos, rem := ts ++ tl, caps := caps } = some r := by
  obtain ⟨mon, w1, day, w2, clock, rfl, ⟨hmonlen, hmon⟩, hw1, ⟨hdaylen, hday⟩, hw2,
    h1, h2, m1, m2, s1, s2, rfl, hh1, hh2, hm1, hm2, hs1, hs2⟩ := hts
  obtain ⟨a1, a2, a3, rfl⟩ := List.length_eq_three.mp hmonlen
  have ha1 := hmon a1 (by simp)
  have ha2 := hmon a2 (by simp)
  have ha3 := hmon a3 (by simp)
  rcases hdaylen with hlen | hlen
  · obtain ⟨d, rfl⟩ := List.length_eq_one.mp hlen
    have hd := hday d (by simp)
    have e : [a1, a2, a3] ++ w1 ++ [d] ++ w2 ++ [h1, h2, 58, m1, m2, 58, s1, s2] ++ tl
        = a1 :: a2 :: a3 :: (w1 ++ (d :: (w2 ++
            (h1 :: h2 :: 58 :: m1 :: m2 :: 58 :: s1 :: s2 :: tl)))) := by
      simp
    rw [e]
    refine ⟨pos + 1 + 1 + 1 + w1.length + 1 + w2.length + 1 + 1 + 1 + 1 + 1 + 1 + 1 + 1,
      fun k r hk => ?_⟩
    apply fwd_seq
    apply fwd_cls isAlpha _ _ a1 _ _ _ ha1
    apply fwd_seq
    apply fwd_cls isAlpha _ _ a2 _ _ _ ha2
    apply fwd_seq
    apply fwd_cls isAlpha _ _ a3 _ _ _ ha3
    apply fwd_seq
    apply fwd_plus isSpace _ _ w1 _ _ _ hw1.1 hw1.2 (head_cons _ _ _ (digit_not_space d hd))
    apply fwd_seq
    apply fwd_cls isDigit _ _ d _ _ _ hd
    apply fwd_seq
    apply fwd_alt_right
    · obtain ⟨hne, hall⟩ := hw2
      cases w2 with
      | nil => exact absurd rfl hne
      | cons x xs => exact fail_cls isDigit _ _ x _ _ (space_not_digit x (hall x (by simp)))
    · apply fwd_eps
      apply fwd_clock_tail _ _ w2 h1 h2 m1 m2 s1 s2 tl _ _ hw2 hh1 hh2 hm1 hm2 hs1 hs2
      exact hk
  · obtain ⟨d, d2, rfl⟩ := List.length_eq_two.mp hlen
    have hd := hday d (by simp)
    have hd2 := hday d2 (by simp)
    have e : [a1, a2, a3] ++ w1 ++ [d, d2] ++ w2 ++ [h1, h2, 58, m1, m2, 58, s1, s2] ++ tl
        = a1 :: a2 :: a3 :: (w1 ++ (d :: d2 :: (w2 ++
            (h1 :: h2 :: 58 :: m1 :: m2 :: 58 :: s1 :: s2 :: tl)))) := by
      simp
    rw [e]
    refine ⟨pos + 1 + 1 + 1 + w1.length + 1 + 1 + w2.length + 1 + 1 + 1 + 1 + 1 + 1 + 1 + 1,
      fun k r hk => ?_⟩
    apply fwd_seq
    apply fwd_cls isAlpha _ _ a1 _ _ _ ha1
    apply fwd_seq
    apply fwd_cls isAlpha _ _ a2 _ _ _ ha2
    apply fwd_seq
    apply fwd_cls isAlpha _ _ a3 _ _ _ ha3
    apply fwd_seq
    apply fwd_plus isSpace _ _ w1 _ _ _ hw1.1 hw1.2 (head_cons _ _ _ (digit_not_space d hd))
    apply fwd_seq
    apply fwd_cls isDigit _ _ d _ _ _ hd
    apply fwd_seq
    apply fwd_alt_left
    apply fwd_cls isDigit _ _ d2 _ _ _ hd2
    apply fwd_clock_tail _ _ w2 h1 h2 m1 m2 s1 s2 tl _ _ hw2 hh1 hh2 hm1 hm2 hs1 hs2
    exact hk

theorem fwd_bol (k : MState → Option MState) (rem : Str) (caps : Nat → Option Str)
    (r : MState) (h : k { pos := 0, rem := rem, caps := caps } = some r) :
    Re.bol.run k { pos := 0, rem := rem, caps := caps } = some r := h

theorem fwd_eol (k : MState → Option MState) (pos : Nat) (caps : Nat → Option Str)
    (r : MState) (h : k { pos := pos, rem := [], caps := caps } = some r) :
    Re.eol.run k { pos := pos, rem := [], caps := caps } = some r := h

theorem head_append_of (w rest : Str) (q : UInt8 → Bool) (hne : w ≠ [])
    (hall : ∀ c ∈ w, q c = false) : ∀ c ∈ (w ++ rest).head?, q c = false := by
  cases w with
  | nil => exact absurd rfl hne
  | cons x xs =>
    intro c hc
    simp only [List.cons_append, List.head?_cons, Option.mem_def, Option.some.injEq] at hc
    subst hc
    exact hall x (by simp)

/-- The syslog pattern matches a line made of a stamp, white space, a host word, white
space and a one-line body that does not begin with white space, with these three parts
as its captures. -/
theorem log_regex_shape (ts ws1 eh ws2 body : Str) (hts : IsTimestamp ts)
    (hws1 : IsBlank ws1) (heh : IsWord eh) (hws2 : IsBlank ws2) (hbody : OneLine body)
    (hhead : ∀ c ∈ body.head?, isSpace c = false) :
    ∃ r, log_regex.run (fun st => if st.rem.isEmpty then some st else none)
        { pos := 0, rem := ts ++ (ws1 ++ (eh ++ (ws2 ++ (body ++ [])))),
          caps := fun _ => none } = some r ∧
      r.caps 1 = some ts ∧ r.caps 2 = some eh ∧ r.caps 3 = some body := by
  obtain ⟨pos1, hTS⟩ := fwd_timestamp 0 ts (ws1 ++ (eh ++ (ws2 ++ (body ++ []))))
    (fun _ => none) hts
  refine ⟨?r, ?h, ?c1, ?c2, ?c3⟩
  case h =>
    apply fwd_seq
    apply fwd_bol
    apply fwd_seq
    apply fwd_group
    apply hTS
    simp only [MState.setCap]
    apply fwd_seq
    apply fwd_plus isSpace _ _ ws1 _ _ _ hws1.1 hws1.2
      (head_append_of eh _ isSpace heh.1 heh.2)
    apply fwd_seq
    apply fwd_group
    apply fwd_plus (fun b => !isSpace b) _ _ eh _ _ _ heh.1
      (fun c hc => by simp [heh.2 c hc])
      (head_append_of ws2 _ _ hws2.1 (fun c hc => by simp [hws2.2 c hc]))
    simp only [MState.setCap]
    apply fwd_seq
    apply fwd_plus isSpace _ _ ws2 _ _ _ hws2.1 hws2.2 (by simpa using hhead)
    apply fwd_seq
    apply fwd_group
    apply fwd_star isDot _ _ body [] _ _ hbody (by simp)
    simp only [MState.setCap]
    apply fwd_eol
    exact if_pos rfl
  case c1 =>
    simp only [List.append_nil, take_consumed]
    simp
  case c2 =>
    simp only [List.append_nil, take_consumed]
    simp
  case c3 =>
    simp only [List.append_nil, List.length_nil, Nat.sub_zero, List.take_length]
    simp

theorem parse_log_line_shape (ts ws1 eh ws2 body : Str) (hts : IsTimestamp ts)
    (hws1 : IsBlank ws1) (heh : IsWord eh) (hws2 : IsBlank ws2) (hbody : OneLine body)
    (hhead : ∀ c ∈ body.head?, isSpace c = false) :
    parse_log_line (ts ++ (ws1 ++ (eh ++ (ws2 ++ body))))
      = { timestamp := ts, hostname := eh, rest := body } := by
  obtain ⟨r, hr, c1, c2, c3⟩ := log_regex_shape ts ws1 eh ws2 body hts hws1 heh hws2 hbody hhead
  rw [List.append_nil] at hr
  unfold parse_log_line regex_match
  rw [hr]
  simp only [Option.map_some', Smatch.sub, c1, c2, c3, Option.getD_some]

/-! ### The HISTORY pattern on a body of the audit shape -/

/-- The HISTORY pattern matches `HISTORY: PID=<p> UID=0 <cmd>` from its first byte, with
`p`, `0` and the whole one-line command as captures. -/
theorem history_regex_shape (pos : Nat) (p ecmd : Str) (hp : IsNumber p)
    (hne : ecmd ≠ []) (hline : OneLine ecmd) (hhead : ∀ c ∈ ecmd.head?, isSpace c = false) :
    ∃ r, history_regex.run some
        { pos := pos,
          rem := lit "HISTORY:" ++ (lit " " ++ (lit "PID=" ++ (p ++ (lit " " ++
            (lit "UID=" ++ (lit "0" ++ (lit " " ++ (ecmd ++ [])))))))),
          caps := fun _ => none } = some r ∧
      r.caps 1 = some p ∧ r.caps 2 = some (lit "0") ∧ r.caps 3 = some ecmd := by
  refine ⟨?r, ?h, ?c1, ?c2, ?c3⟩
  case h =>
    apply fwd_seq
    apply fwd_str "HISTORY:"
    apply fwd_seq
    apply fwd_star isSpace _ _ (lit " ") _ _ _ (by decide!)
      (head_append_of (lit "PID=") _ isSpace (by decide!) (by decide!))
    apply fwd_seq
    apply fwd_str "PID="
    apply fwd_seq
    apply fwd_group
    apply fwd_plus isDigit _ _ p _ _ _ hp.1 hp.2
      (head_append_of (lit " ") _ isDigit (by decide!) (by decide!))
    simp only [MState.setCap]
    apply fwd_seq
    apply fwd_plus isSpace _ _ (lit " ") _ _ _ (by decide!) (by decide!)
      (head_append_of (lit "UID=") _ isSpace (by decide!) (by decide!))
    apply fwd_seq
    apply fwd_str "UID="
    apply fwd_seq
    apply fwd_group
    apply fwd_plus isDigit _ _ (lit "0") _ _ _ (by decide!) (by decide!)
      (head_append_of (lit " ") _ isDigit (by decide!) (by decide!))
    simp only [MState.setCap]
    apply fwd_seq
    apply fwd_plus isSpace _ _ (lit " ") _ _ _ (by decide!) (by decide!)
      (by simpa using hhead)
    apply fwd_group
    apply fwd_plus isDot _ _ ecmd [] _ _ hne hline (by simp)
    simp only [MState.setCap]
    exact rfl
  case c1 =>
    simp only [List.append_nil, take_consumed]
    simp
  case c2 =>
    simp only [List.append_nil, take_consumed]
    simp
  case c3 =>
    simp only [List.append_nil, List.length_nil, Nat.sub_zero, List.take_length]
    simp

theorem matchesAt_false (re : Re) (s : Str) (i : Nat) (h : matchesAt re s i = false) :
    re.run some { pos := i, rem := s.drop i, caps := fun _ => none } = none := by
  unfold matchesAt at h
  cases hr : re.run some { pos := i, rem := s.drop i, caps := fun _ => none } with
  | none => rfl
  | some r =>
    rw [hr] at h
    cases h

/-- The search for the HISTORY pattern in a body in which no match begins before
`HISTORY: PID=<p> UID=0 <cmd>`. -/
theorem history_search_shape (epre p ecmd : Str) (hp : IsNumber p) (hne : ecmd ≠ [])
    (hline : OneLine ecmd) (hhead : ∀ c ∈ ecmd.head?, isSpace c = false)
    (hfirst : ∀ i, i < epre.length →
      matchesAt history_regex
        (epre ++ (lit "HISTORY:" ++ (lit " " ++ (lit "PID=" ++ (p ++ (lit " " ++
          (lit "UID=" ++ (lit "0" ++ (lit " " ++ ecmd))))))))) i = false) :
    ∃ m, regex_search_m history_regex
        (epre ++ (lit "HISTORY:" ++ (lit " " ++ (lit "PID=" ++ (p ++ (lit " " ++
          (lit "UID=" ++ (lit "0" ++ (lit " " ++ ecmd))))))))) = some m ∧
      m.sub 1 = p ∧ m.sub 2 = lit "0" ∧ m.sub 3 = ecmd := by
  obtain ⟨r, hr, c1, c2, c3⟩ := history_regex_shape (0 + epre.length) p ecmd hp hne hline hhead
  rw [List.append_nil] at hr
  refine ⟨{ caps := r.caps }, ?_, ?_, ?_, ?_⟩
  · unfold regex_search_m
    rw [searchFrom_skip history_regex epre.length 0 _ (by simp)
      (fun i hi => by
        have h := matchesAt_false _ _ _ (hfirst i hi)
        rw [Nat.zero_add]
        exact h)]
    rw [List.drop_left, searchFrom_hit _ _ _ r hr]
    rfl
  · simp only [Smatch.sub, c1, Option.getD_some]
  · simp only [Smatch.sub, c2, Option.getD_some]
  · simp only [Smatch.sub, c3, Option.getD_some]

theorem find_append (needle a s : Str) (h : needle.isPrefixOf s = true) :
    (find needle (a ++ s)).isSome = true := by
  induction a with
  | nil =>
    cases s with
    | nil =>
      simp only [List.nil_append, find]
      cases needle with
      | nil => rfl
      | cons x xs => simp [List.isPrefixOf] at h
    | cons c cs =>
      simp only [List.nil_append, find, h, if_true]
      rfl
  | cons x xs ih =>
    simp only [List.cons_append, find]
    split
    · rfl
    · simpa using ih

/-! ### The icon of a recursive removal -/

theorem regex_search_cat_bol (r : Re) (rs : List Re) (s : Str) :
    regex_search (Re.cat (.bol :: r :: rs)) s
      = ((Re.cat (r :: rs)).run some { pos := 0, rem := s, caps := fun _ => none }).isSome :=
  regex_search_bol (Re.cat (r :: rs)) s

theorem seq_isSome (a b : Re) (k : MState → Option MState) (s : MState)
    (h : (a.run (b.run k) s).isSome = true) : ((Re.seq a b).run k s).isSome = true := h

/-- None of the icon patterns tried before the removal pattern matches a command that
begins with `rm`. -/
theorem earlier_icons_fail (t : Str) :
    regex_search (Re.cat [.bol, .group 1 (Re.alts [.str "ssh", .str "scp", .str "sftp"])])
      (114 :: 109 :: t) = false ∧
    regex_search (Re.cat [.bol, .str "su", .group 1 (Re.alts [.space, .eol])])
      (114 :: 109 :: t) = false ∧
    regex_search (Re.cat [.bol, .str "docker"]) (114 :: 109 :: t) = false ∧
    regex_search (Re.cat [.bol,
      .group 1 (Re.alts [.str "systemctl", .str "rc-service", .str "rc-update"])])
      (114 :: 109 :: t) = false := by
  refine ⟨?_, ?_, ?_, ?_⟩
  · rw [regex_search_cat_bol]
    rfl
  · rw [regex_search_cat_bol]
    rfl
  · rw [regex_search_cat_bol]
    rfl
  · rw [regex_search_cat_bol]
    rfl

theorem byte_run_isSome (c : UInt8) (pos : Nat) (rest : Str) (caps : Nat → Option Str) :
    ((Re.byte c).run some { pos := pos, rem := c :: rest, caps := caps }).isSome = true := by
  simp [Re.byte, Re.run]

/-- The removal pattern `^(rm|rmdir)\s+-.*r` matches a command made of `rm` or `rmdir`,
white space, a `-`, one-line text and an `r`, whatever follows. -/
theorem removal_icon_matches (head ws ef et : Str)
    (hhead : head = lit "rm" ∨ head = lit "rmdir") (hws : IsBlank ws) (hef : OneLine ef) :
    regex_search (Re.cat [.bol, .group 1 (Re.alts [.str "rm", .str "rmdir"]),
      .plus .space, .byte 45, .star .dot, .byte 114])
      (head ++ (ws ++ (45 :: (ef ++ (114 :: et))))) = true := by
  rw [regex_search_cat_bol]
  have hdash : ∀ c ∈ (45 :: (ef ++ (114 :: et))).head?, isSpace c = false :=
    head_cons isSpace 45 _ (by decide)
  rcases hhead with rfl | rfl
  · refine isSome_lift (fun r hr => fwd_seq _ _ _ _ r (fwd_group _ _ _ _ r
      (fwd_alt_left _ _ _ _ r (fwd_str "rm" _ _ _ _ r hr)))) ?_
    simp only [MState.setCap]
    refine isSome_lift (fun r hr => fwd_seq _ _ _ _ r
      (fwd_plus isSpace _ _ ws _ _ r hws.1 hws.2 hdash hr)) ?_
    refine isSome_lift (fun r hr => fwd_seq _ _ _ _ r
      (fwd_cls _ _ _ 45 _ _ r (by decide) hr)) ?_
    apply seq_isSome
    apply star_some isDot _ _ ef (114 :: et) _ hef
    exact byte_run_isSome 114 _ et _
  · refine isSome_lift (fun r hr => fwd_seq _ _ _ _ r (fwd_group _ _ _ _ r
      (fwd_alt_right _ _ _ _ r (by exact rfl) (fwd_str "rmdir" _ _ _ _ r hr)))) ?_
    simp only [MState.setCap]
    refine isSome_lift (fun r hr => fwd_seq _ _ _ _ r
      (fwd_plus isSpace _ _ ws _ _ r hws.1 hws.2 hdash hr)) ?_
    refine isSome_lift (fun r hr => fwd_seq _ _ _ _ r
      (fwd_cls _ _ _ 45 _ _ r (by decide) hr)) ?_
    apply seq_isSome
    apply star_some isDot _ _ ef (114 :: et) _ hef
    exact byte_run_isSome 114 _ et _

/-- The icon chosen for a recursive removal. -/
theorem history_emoji_removal (emoji head ws ef et : Str)
    (hhead : head = lit "rm" ∨ head = lit "rmdir") (hws : IsBlank ws) (hef : OneLine ef) :
    history_emoji emoji (head ++ (ws ++ (45 :: (ef ++ (114 :: et))))) = lit "🗑️" := by
  have h5 := removal_icon_matches head ws ef et hhead hws hef
  have hshape : ∃ t, head ++ (ws ++ (45 :: (ef ++ (114 :: et)))) = 114 :: 109 :: t := by
    rcases hhead with rfl | rfl
    · exact ⟨_, rfl⟩
    · exact ⟨_, rfl⟩
  obtain ⟨t, ht⟩ := hshape
  rw [ht] at h5 ⊢
  obtain ⟨h1, h2, h3, h4⟩ := earlier_icons_fail t
  unfold history_emoji
  rw [if_neg (by rw [h1]; decide), if_neg (by rw [h2]; decide), if_neg (by rw [h3]; decide),
    if_neg (by rw [h4]; decide), if_pos h5]

/-! ### Escaping text of a known kind -/

theorem html_escape_append (a b : Str) :
    html_escape (a ++ b) = html_escape a ++ html_escape b := by
  unfold html_escape
  exact List.flatMap_append a b escapeByte

theorem html_escape_plain (s : Str) (h : ∀ c ∈ s, plainByte c) : html_escape s = s := by
  induction s with
  | nil => rfl
  | cons c cs ih =>
    have hc := h c (by simp)
    have e : escapeByte c = [c] := by
      unfold escapeByte
      rw [if_neg hc.1, if_neg hc.2.1, if_neg hc.2.2]
    unfold html_escape at ih ⊢
    rw [List.flatMap_cons, e, ih (fun x hx => h x (by simp [hx]))]
    rfl

theorem html_escape_oneLine (s : Str) (h : OneLine s) : OneLine (html_escape s) := by
  intro x hx
  unfold html_escape at hx
  rw [List.mem_flatMap] at hx
  obtain ⟨c, hc, hxc⟩ := hx
  exact (escapeByte_classes c x hxc).2 (h c hc)

theorem html_escape_word (s : Str) (h : IsWord s) : IsWord (html_escape s) := by
  obtain ⟨hne, hall⟩ := h
  constructor
  · cases s with
    | nil => exact absurd rfl hne
    | cons c cs =>
      unfold html_escape
      rw [List.flatMap_cons]
      intro h0
      exact escapeByte_ne_nil c (List.append_eq_nil.mp h0).1
  · intro x hx
    unfold html_escape at hx
    rw [List.mem_flatMap] at hx
    obtain ⟨c, hc, hxc⟩ := hx
    exact (escapeByte_classes c x hxc).1 (hall c hc)

theorem html_escape_head (s : Str) (h : ∀ c ∈ s.head?, isSpace c = false) :
    ∀ c ∈ (html_escape s).head?, isSpace c = false := by
  cases s with
  | nil =>
    intro c hc
    cases hc
  | cons x xs =>
    have hx : isSpace x = false := h x (by simp)
    unfold html_escape
    rw [List.flatMap_cons]
    exact head_append_of (escapeByte x) _ isSpace (escapeByte_ne_nil x)
      (fun y hy => (escapeByte_classes x y hy).1 hx)

theorem oneLine_append {a b : Str} (ha : OneLine a) (hb : OneLine b) : OneLine (a ++ b) := by
  intro c hc
  rcases List.mem_append.mp hc with h | h
  · exact ha c h
  · exact hb c h

theorem digit_dot : ∀ c : UInt8, isDigit c = true → isDot c = true :=
  byte_forall _ (by decide!)

theorem timestamp_plain (ts : Str) (hts : IsTimestamp ts) : ∀ c ∈ ts, plainByte c := by
  obtain ⟨mon, w1, day, w2, clock, rfl, ⟨_, hmon⟩, hw1, ⟨_, hday⟩, hw2,
    h1, h2, m1, m2, s1, s2, rfl, hh1, hh2, hm1, hm2, hs1, hs2⟩ := hts
  intro c hc
  simp only [List.mem_append, List.mem_cons, List.mem_singleton, List.not_mem_nil,
    or_false] at hc
  rcases hc with (((hc | hc) | hc) | hc) | hc
  · exact alpha_plain_byte c (hmon c hc)
  · exact space_plain_byte c (hw1.2 c hc)
  · exact digit_plain_byte c (hday c hc)
  · exact space_plain_byte c (hw2.2 c hc)
  · rcases hc with rfl | rfl | rfl | rfl | rfl | rfl | rfl | rfl
    · exact digit_plain_byte _ hh1
    · exact digit_plain_byte _ hh2
    · decide
    · exact digit_plain_byte _ hm1
    · exact digit_plain_byte _ hm2
    · decide
    · exact digit_plain_byte _ hs1
    · exact digit_plain_byte _ hs2

/-- The escaped form of a recursive removal keeps its shape. -/
theorem html_escape_destructive (cmd : Str) (hcmd : IsDestructive cmd) (hline : OneLine cmd) :
    ∃ head ws ef et, html_escape cmd = head ++ (ws ++ (45 :: (ef ++ (114 :: et)))) ∧
      (head = lit "rm" ∨ head = lit "rmdir") ∧ IsBlank ws ∧ OneLine ef := by
  obtain ⟨head, ws, flags, tail, rfl, hhead, hws⟩ := hcmd
  refine ⟨head, ws, html_escape flags, html_escape tail, ?_, hhead, hws, ?_⟩
  · have e1 : html_escape head = head := by
      rcases hhead with rfl | rfl
      · decide!
      · decide!
    have e2 : html_escape ws = ws :=
      html_escape_plain ws (fun c hc => space_plain_byte c (hws.2 c hc))
    have e3 : html_escape [45] = [45] := by decide!
    have e4 : html_escape [114] = [114] := by decide!
    rw [html_escape_append, html_escape_append, html_escape_append, html_escape_append,
      html_escape_append, e1, e2, e3, e4]
    simp only [List.append_assoc, List.singleton_append, List.cons_append, List.nil_append]
  · apply html_escape_oneLine
    intro c hc
    exact hline c (by simp [hc])

/-! ### The rendering of a recursive removal by root -/

/-- C11 as stated fails, in three ways.  The command is shown escaped, not as it stands
in the line (`a&b` becomes `a&amp;b`).  When an earlier part of the body already matches
the PID/UID/command pattern, that earlier match is the one rendered (here PID 1, UID 5
under the user banner).  And a carriage return in the command ends the captured command
and makes the line fail the syslog pattern, so the stamp and the host are empty. -/
theorem root_removal_layout_fails :
    format_log_line (lit "Oct 29 01:09:44 host1 bash: HISTORY: PID=999 UID=0 rm -rf /tmp/a&b")
      ≠ some (lit "🗑️ <b>" ++ lit "Oct 29 01:09:44" ++ lit "</b> <code>" ++ lit "host1" ++
          lit "</code>\n├ <b><u>ROOT</u></b> PID:<code>" ++ lit "999" ++
          lit "</code> UID:<code>0</code>\n└ <code>" ++ lit "rm -rf /tmp/a&b" ++ lit "</code>") ∧
    format_log_line (lit "Oct 29 01:09:44 host1 bash: HISTORY: PID=999 UID=0 rm -rf /tmp/a&b")
      = some (lit "🗑️ <b>Oct 29 01:09:44</b> <code>host1</code>\n├ <b><u>ROOT</u></b> PID:<code>999</code> UID:<code>0</code>\n└ <code>rm -rf /tmp/a&amp;b</code>") ∧
    format_log_line
        (lit "Oct 29 01:09:44 host1 bash: HISTORY: PID=1 UID=5 x HISTORY: PID=999 UID=0 rm -rf /tmp/x")
      = some (lit "🧠 <b>Oct 29 01:09:44</b> <code>host1</code>\n├ 👤 User PID:<code>1</code> UID:<code>5</code>\n└ <code>x HISTORY: PID=999 UID=0 rm -rf /tmp/x</code>") ∧
    format_log_line (lit "Oct 29 01:09:44 host1 bash: HISTORY: PID=999 UID=0 rm -rf /tmp/x\ry")
      = some (lit "🗑️ <b></b> <code></code>\n├ <b><u>ROOT</u></b> PID:<code>999</code> UID:<code>0</code>\n└ <code>rm -rf /tmp/x</code>") := by
  decide!

/-- C11, amended: take a line made of a syslog stamp `ts`, white space, a host word,
white space and a one-line body that does not begin with white space and reads
`pre` followed by `HISTORY: PID=<p> UID=0 <cmd>`, where `p` is a non-empty digit string,
`cmd` is a one-line recursive removal (`rm` or `rmdir`, white space, a `-` followed
somewhere by an `r`), and no match of the PID/UID/command pattern begins in the escaped
body before that `HISTORY:`.  Whatever other keywords `pre` and `cmd` contain, the result
is exactly the three-line ROOT layout with the removal icon, the stamp, the escaped host,
`p`, UID 0 and the escaped command. -/
theorem root_removal_layout (ts ws1 host ws2 pre p cmd : Str)
    (hts : IsTimestamp ts) (hws1 : IsBlank ws1) (hhost : IsWord host) (hws2 : IsBlank ws2)
    (hpre : OneLine pre) (hprehead : ∀ c ∈ pre.head?, isSpace c = false)
    (hp : IsNumber p) (hcmd : IsDestructive cmd) (hcmdline : OneLine cmd)
    (hfirst : ∀ i, i < (html_escape pre).length →
      matchesAt history_regex
        (html_escape (pre ++ lit "HISTORY: PID=" ++ p ++ lit " UID=0 " ++ cmd)) i = false) :
    format_log_line
        (ts ++ ws1 ++ host ++ ws2 ++ (pre ++ lit "HISTORY: PID=" ++ p ++ lit " UID=0 " ++ cmd))
      = some (lit "🗑️ <b>" ++ ts ++ lit "</b> <code>" ++ html_escape host ++
          lit "</code>\n├ <b><u>ROOT</u></b> PID:<code>" ++ p ++
          lit "</code> UID:<code>0</code>\n└ <code>" ++ html_escape cmd ++ lit "</code>") := by
  obtain ⟨head, ws, ef, et, hecmd, hhead, hws, hef⟩ := html_escape_destructive cmd hcmd hcmdline
  have hts_plain := html_escape_plain ts (timestamp_plain ts hts)
  have hws1_plain := html_escape_plain ws1 (fun c hc => space_plain_byte c (hws1.2 c hc))
  have hws2_plain := html_escape_plain ws2 (fun c hc => space_plain_byte c (hws2.2 c hc))
  have hp_plain := html_escape_plain p (fun c hc => digit_plain_byte c (hp.2 c hc))
  have hl1 : html_escape (lit "HISTORY: PID=") = lit "HISTORY:" ++ (lit " " ++ lit "PID=") := by
    decide!
  have hl2 : html_escape (lit " UID=0 ")
      = lit " " ++ (lit "UID=" ++ (lit "0" ++ lit " ")) := by
    decide!
  have hbody : html_escape (pre ++ lit "HISTORY: PID=" ++ p ++ lit " UID=0 " ++ cmd)
      = html_escape pre ++ (lit "HISTORY:" ++ (lit " " ++ (lit "PID=" ++ (p ++ (lit " " ++
          (lit "UID=" ++ (lit "0" ++ (lit " " ++ html_escape cmd)))))))) := by
    rw [html_escape_append, html_escape_append, html_escape_append, html_escape_append,
      hl1, hl2, hp_plain]
    simp only [List.append_assoc]
  have hline : html_escape
      (ts ++ ws1 ++ host ++ ws2 ++ (pre ++ lit "HISTORY: PID=" ++ p ++ lit " UID=0 " ++ cmd))
      = ts ++ (ws1 ++ (html_escape host ++ (ws2 ++
          (html_escape pre ++ (lit "HISTORY:" ++ (lit " " ++ (lit "PID=" ++ (p ++ (lit " " ++
            (lit "UID=" ++ (lit "0" ++ (lit " " ++ html_escape cmd)))))))))))) := by
    rw [html_escape_append, html_escape_append, html_escape_append, html_escape_append,
      hbody, hts_plain, hws1_plain, hws2_plain]
    simp only [List.append_assoc]
  rw [hbody] at hfirst
  have hcmd_line : OneLine (html_escape cmd) := html_escape_oneLine cmd hcmdline
  have hcmd_ne : html_escape cmd ≠ [] := by
    rw [hecmd]
    rcases hhead with rfl | rfl
    · intro h
      cases h
    · intro h
      cases h
  have hcmd_head : ∀ c ∈ (html_escape cmd).head?, isSpace c = false := by
    rw [hecmd]
    rcases hhead with rfl | rfl
    · exact head_append_of (lit "rm") _ isSpace (by decide!) (by decide!)
    · exact head_append_of (lit "rmdir") _ isSpace (by decide!) (by decide!)
  have hbody_line : OneLine (html_escape pre ++ (lit "HISTORY:" ++ (lit " " ++ (lit "PID=" ++
      (p ++ (lit " " ++ (lit "UID=" ++ (lit "0" ++ (lit " " ++ html_escape cmd))))))))) :=
    oneLine_append (html_escape_oneLine pre hpre) (oneLine_append (by decide!)
      (oneLine_append (by decide!) (oneLine_append (by decide!)
        (oneLine_append (fun c hc => digit_dot c (hp.2 c hc)) (oneLine_append (by decide!)
          (oneLine_append (by decide!) (oneLine_append (by decide!)
            (oneLine_append (by decide!) hcmd_line))))))))
  have hbody_head : ∀ c ∈ (html_escape pre ++ (lit "HISTORY:" ++ (lit " " ++ (lit "PID=" ++
      (p ++ (lit " " ++ (lit "UID=" ++ (lit "0" ++ (lit " " ++ html_escape cmd))))))))).head?,
      isSpace c = false := by
    cases hpe : html_escape pre with
    | nil =>
      rw [List.nil_append]
      exact head_append_of (lit "HISTORY:") _ isSpace (by decide!) (by decide!)
    | cons x xs =>
      have h := html_escape_head pre hprehead
      rw [hpe] at h
      intro c hc
      exact h c hc
  have hparse := parse_log_line_shape ts ws1 (html_escape host) ws2 _ hts hws1
    (html_escape_word host hhost) hws2 hbody_line hbody_head
  obtain ⟨m, hm, s1, s2, s3⟩ := history_search_shape (html_escape pre) p (html_escape cmd) hp
    hcmd_ne hcmd_line hcmd_head hfirst
  have hfind := find_append (lit "HISTORY:") (html_escape pre)
    (lit "HISTORY:" ++ (lit " " ++ (lit "PID=" ++ (p ++ (lit " " ++
      (lit "UID=" ++ (lit "0" ++ (lit " " ++ html_escape cmd))))))))
    (List.isPrefixOf_iff_prefix.mpr (List.prefix_append _ _))
  have hemoji : history_emoji (lit "🧠") (html_escape cmd) = lit "🗑️" := by
    rw [hecmd]
    exact history_emoji_removal _ head ws ef et hhead hws hef
  have e1 : lit "🗑️ <b>" = lit "🗑️" ++ lit " <b>" := by decide!
  have e2 : lit "</code>\n├ <b><u>ROOT</u></b> PID:<code>"
      = lit "</code>\n" ++ lit "├ <b><u>ROOT</u></b> PID:<code>" := by decide!
  have e3 : lit "</code> UID:<code>0</code>\n└ <code>"
      = lit "</code> UID:<code>" ++ (lit "0" ++ (lit "</code>\n" ++ lit "└ <code>")) := by
    decide!
  unfold format_log_line
  simp only [hline, hparse]
  simp only [hfind, if_true, hm, s1, s2, s3, hemoji, header, e1, e2, e3, List.append_assoc]

/-- C11, amended, on the line of the specification's scenario,
`Oct 29 01:09:44 host1 sshd[123]: HISTORY: PID=999 UID=0 rm -rf /tmp/x`: stamp
`Oct 29 01:09:44`, host `host1`, PID 999, UID 0, command `rm -rf /tmp/x`, the ROOT banner
and the removal icon, although the body also names `sshd`. -/
theorem root_removal_layout_witness :
    lit "Oct 29 01:09:44" ++ lit " " ++ lit "host1" ++ lit " " ++
        (lit "sshd[123]: " ++ lit "HISTORY: PID=" ++ lit "999" ++ lit " UID=0 " ++
          lit "rm -rf /tmp/x")
      = lit "Oct 29 01:09:44 host1 sshd[123]: HISTORY: PID=999 UID=0 rm -rf /tmp/x" ∧
    html_escape (lit "host1") = lit "host1" ∧
    html_escape (lit "rm -rf /tmp/x") = lit "rm -rf /tmp/x" ∧
    format_log_line
        (lit "Oct 29 01:09:44" ++ lit " " ++ lit "host1" ++ lit " " ++
          (lit "sshd[123]: " ++ lit "HISTORY: PID=" ++ lit "999" ++ lit " UID=0 " ++
            lit "rm -rf /tmp/x"))
      = some (lit "🗑️ <b>" ++ lit "Oct 29 01:09:44" ++ lit "</b> <code>" ++
          html_escape (lit "host1") ++ lit "</code>\n├ <b><u>ROOT</u></b> PID:<code>" ++
          lit "999" ++ lit "</code> UID:<code>0</code>\n└ <code>" ++
          html_escape (lit "rm -rf /tmp/x") ++ lit "</code>") :=
  ⟨by decide!, by decide!, by decide!,
   root_removal_layout (lit "Oct 29 01:09:44") (lit " ") (lit "host1") (lit " ")
     (lit "sshd[123]: ") (lit "999") (lit "rm -rf /tmp/x")
     ⟨lit "Oct", lit " ", lit "29", lit " ", lit "01:09:44", by decide!, by decide!,
       by decide!, by decide!, by decide!,
       ⟨48, 49, 48, 57, 52, 52, by decide!, by decide!, by decide!, by decide!, by decide!,
         by decide!, by decide!⟩⟩
     (by decide!) (by decide!) (by decide!) (by decide!) (by decide!) (by decide!)
     ⟨lit "rm", lit " ", [], lit "f /tmp/x", by decide!, Or.inl rfl, by decide!⟩
     (by decide!) (by decide!)⟩

end Telegrep
